import Mathlib

/-!
Formal model of the turn-formatting, session-window, structured-turn,
error-classification and persistence logic of the SungBaeHan/ai repository.

Python strings are modelled as `List Char` (one element per Unicode code
point, matching Python's `str` indexing/slicing).  Python's global
pseudo-random generator (`random.choice`) is modelled as an explicit
stream `g : Nat → Nat` giving the sequence of raw draws made during one
call (index `i` is the i-th draw; a drawn index into a pool of size `k`
is `g i % k`).  The seeded sampler `random.Random(hash(head) &
0xffffffff).sample(pool, 3)` is modelled as an oracle
`S : List Char → List (List Char) → List (List Char)`: it is a pure
function of the seed text and the pool, which is exactly the determinism
the source relies on (within one process, `hash` and the Mersenne
twister are pure functions).
-/

/-- Python strings as lists of Unicode code points. -/
abbrev Str := List Char

/-- Whitespace per Python's `str.isspace` / regex `\s` on `str`
(ASCII whitespace, the C1 separators, NEL, NBSP and the Unicode space
characters). -/
def isPySpace (c : Char) : Bool :=
  c = ' ' || c = '\t' || c = '\n' || c = '\r' || c = '\x0b' || c = '\x0c' ||
  c = '\x1c' || c = '\x1d' || c = '\x1e' || c = '\x1f' || c = '\x85' || c = '\xa0' ||
  c.toNat = 0x1680 || (0x2000 ≤ c.toNat && c.toNat ≤ 0x200a) ||
  c.toNat = 0x2028 || c.toNat = 0x2029 || c.toNat = 0x202f ||
  c.toNat = 0x205f || c.toNat = 0x3000

/-- Line terminators recognised by Python's `str.splitlines`. -/
def isLineTerm (c : Char) : Bool :=
  c = '\n' || c = '\r' || c = '\x0b' || c = '\x0c' ||
  c = '\x1c' || c = '\x1d' || c = '\x1e' || c = '\x85' ||
  c.toNat = 0x2028 || c.toNat = 0x2029

/-- Worker for `pySplitlines`; `cur` is the current line, reversed, and
`skipNl` is set just after a `\r` so that a following `\n` is consumed
as part of the same `\r\n` terminator. -/
def pySplitlinesGo (skipNl : Bool) (cur : Str) : Str → List Str
  | [] => if cur = [] then [] else [cur.reverse]
  | c :: rest =>
    if skipNl && c = '\n' then pySplitlinesGo false cur rest
    else if c = '\r' then cur.reverse :: pySplitlinesGo true [] rest
    else if isLineTerm c then cur.reverse :: pySplitlinesGo false [] rest
    else pySplitlinesGo false (c :: cur) rest

/-- Python `str.splitlines()`. -/
def pySplitlines (s : Str) : List Str := pySplitlinesGo false [] s

/-- Python `str.lstrip()` (no argument: strips whitespace). -/
def pyLstrip (s : Str) : Str := s.dropWhile (fun c => isPySpace c)

/-- Python `str.rstrip()`. -/
def pyRstrip (s : Str) : Str := (s.reverse.dropWhile (fun c => isPySpace c)).reverse

/-- Python `str.strip()`. -/
def pyStrip (s : Str) : Str := pyLstrip (pyRstrip s)

/-- Join a list of strings with a separator (Python `sep.join(parts)`). -/
def joinSep (sep : Str) : List Str → Str
  | [] => []
  | [x] => x
  | x :: y :: xs => x ++ sep ++ joinSep sep (y :: xs)

/-- `leadsWith pat s` is true when `pat` is a leading segment of `s`. -/
def leadsWith : Str → Str → Bool
  | [], _ => true
  | _ :: _, [] => false
  | p :: ps, c :: cs => p = c && leadsWith ps cs

/-- Index of the first occurrence of `pat` in `s` (Python `str.find` /
leftmost regex match of a literal), if any. -/
def findSub (pat : Str) : Str → Option Nat
  | [] => if pat = [] then some 0 else none
  | c :: cs =>
    if leadsWith pat (c :: cs) then some 0
    else (findSub pat cs).map (· + 1)

/-- The part of `s` before the first occurrence of `pat`
(`s.split(pat, 1)[0]` when `pat` occurs, else all of `s`). -/
def takeBeforeSub (pat s : Str) : Str :=
  match findSub pat s with
  | some j => s.take j
  | none => s

/-- The part of `s` after the first occurrence of `pat`
(`s.split(pat, 1)[1]` when `pat` occurs, else empty). -/
def takeAfterSub (pat s : Str) : Str :=
  match findSub pat s with
  | some j => s.drop (j + pat.length)
  | none => []

/-- Substring test (`pat in s` in Python). -/
def strContains (s pat : Str) : Bool := (findSub pat s).isSome

/-- ASCII lowercasing of one character (the fragment of `str.lower`
relevant to the ASCII match targets used by the code). -/
def asciiLowerChar (c : Char) : Char :=
  if 'A' ≤ c && c ≤ 'Z' then Char.ofNat (c.toNat + 32) else c

/-- ASCII lowercasing of a string. -/
def asciiLower (s : Str) : Str := s.map asciiLowerChar

/-- Non-overlapping left-to-right literal substitution with fuel
(`re.sub(pat, rep, s)` for a literal pattern); fuel `s.length` always
suffices. -/
def subLitGo (pat rep : Str) : Nat → Str → Str
  | 0, s => s
  | _ + 1, [] => []
  | f + 1, c :: cs =>
    if pat ≠ [] && leadsWith pat (c :: cs) then
      rep ++ subLitGo pat rep f ((c :: cs).drop pat.length)
    else c :: subLitGo pat rep f cs

/-- Literal-pattern `re.sub`. -/
def subLit (pat rep s : Str) : Str := subLitGo pat rep s.length s

/-- Python slicing `l[-n:]` (the last `n` elements, or all of `l` when
it is shorter). -/
def pyTail (n : Nat) (l : List α) : List α := l.drop (l.length - n)

/-- Keep-first-occurrence deduplication (`dict.fromkeys`). -/
def dedupFirstGo (seen : List Str) : List Str → List Str
  | [] => []
  | x :: xs =>
    if seen.contains x then dedupFirstGo seen xs
    else x :: dedupFirstGo (x :: seen) xs

/-- `list(dict.fromkeys(l))`: dedup keeping first occurrences. -/
def dedupFirst (l : List Str) : List Str := dedupFirstGo [] l

/-- Worker for `dedupNonempty`. -/
def dedupNonemptyGo (seen : List Str) : List Str → List Str
  | [] => []
  | x :: xs =>
    if x ≠ [] && !(seen.contains x) then x :: dedupNonemptyGo (x :: seen) xs
    else dedupNonemptyGo seen xs

/-- Dedup that also drops empty strings, mirroring
`if c and c not in seen: seen.add(c); uniq.append(c)`. -/
def dedupNonempty (l : List Str) : List Str := dedupNonemptyGo [] l

/-! ### Character classes used by `apps/api/routes/chat.py` -/

/-- Hangul syllables, regex class `[가-힣]`. -/
def isHangul (c : Char) : Bool := 0xac00 ≤ c.toNat && c.toNat ≤ 0xd7a3

/-- CJK unified ideographs, regex class `[一-鿿]`. -/
def isHanja (c : Char) : Bool := 0x4e00 ≤ c.toNat && c.toNat ≤ 0x9fff

/-- Latin letters, regex class `[A-Za-z]`. -/
def isLatinLetter (c : Char) : Bool :=
  ('A' ≤ c && c ≤ 'Z') || ('a' ≤ c && c ≤ 'z')

/-- The wider ideograph range `[㐀-鿿]` stripped by the final
cleanup pass. -/
def isCjkWide (c : Char) : Bool := 0x3400 ≤ c.toNat && c.toNat ≤ 0x9fff

/-- Sentence-terminal characters `[.!?]`. -/
def isTermCh (c : Char) : Bool := c = '.' || c = '!' || c = '?'

/-- The punctuation class `[,.!?;:]` of the final cosmetic passes. -/
def isPunct6 (c : Char) : Bool :=
  c = ',' || c = '.' || c = '!' || c = '?' || c = ';' || c = ':'

/-- Word characters for `\b`; Python's unicode `\w` restricted to the
scripts this code manipulates (ASCII alphanumerics, underscore, Hangul
syllables and jamo, CJK ideographs). -/
def isPyWord (c : Char) : Bool :=
  c.isAlphanum || c = '_' || isHangul c || isHanja c ||
  (0x1100 ≤ c.toNat && c.toNat ≤ 0x11ff) || (0x3130 ≤ c.toNat && c.toNat ≤ 0x318f)

/-! ### `re.sub(r'^\s*\[[^\]]+\]\s*$', '', text, flags=re.M)` -/

/-- Try to match `\s*\[[^\]]+\]\s*$` (multiline `$`) at the start of
`s`; returns the length of the matched span.  `\s*` may cross newlines;
`[^\]]+` runs to the first `]`; the trailing `\s*$` stops at the end of
the string or just before the last newline of the trailing whitespace
run (the greedy backtracking outcome). -/
def matchTag (s : Str) : Option Nat :=
  let w := s.takeWhile (fun c => isPySpace c)
  match s.drop w.length with
  | '[' :: r2 =>
    let body := r2.takeWhile (fun c => c ≠ ']')
    if body = [] then none
    else
      match r2.drop body.length with
      | ']' :: r3 =>
        let run := r3.takeWhile (fun c => isPySpace c)
        let base := w.length + 1 + body.length + 1
        if r3.drop run.length = [] then some (base + run.length)
        else if run.contains '\n' then
          some (base + (run.length - 1 - run.reverse.findIdx (fun c => c = '\n')))
        else none
      | _ => none
  | _ => none

/-- Scanner for the bracket-only-line removal; `atStart` is true at
`^`-positions (string start or just after a newline). -/
def removeTagGo (fuel : Nat) (atStart : Bool) (s : Str) : Str :=
  match fuel, s with
  | 0, s => s
  | _ + 1, [] => []
  | f + 1, c :: cs =>
    if atStart then
      match matchTag (c :: cs) with
      | some L =>
        let nextStart := match ((c :: cs).take L).getLast? with
          | some '\n' => true
          | _ => false
        removeTagGo f nextStart ((c :: cs).drop L)
      | none => c :: removeTagGo f (c = '\n') cs
    else c :: removeTagGo f (c = '\n') cs

/-- The bracket-only meta-line removal at the top of `postprocess_trpg`. -/
def removeTagLines (s : Str) : Str := removeTagGo s.length true s

/-! ### `refine_ko` -/

/-- `re.sub` for a literal pattern guarded by a `\b` after it. -/
def subBoundaryGo (pat rep : Str) : Nat → Str → Str
  | 0, s => s
  | _ + 1, [] => []
  | f + 1, c :: cs =>
    if pat ≠ [] && leadsWith pat (c :: cs) &&
       (match (c :: cs).drop pat.length with
        | [] => true
        | d :: _ => !isPyWord d) then
      rep ++ subBoundaryGo pat rep f ((c :: cs).drop pat.length)
    else c :: subBoundaryGo pat rep f cs

/-- `re.sub(pat + r'\b', rep, s)` for a literal `pat`. -/
def subBoundary (pat rep s : Str) : Str := subBoundaryGo pat rep s.length s

/-- Lazy extension step for `([^.!?]{24,}?)(,|\s)\s`: the group has `L`
characters so far; succeed as soon as the next two characters are
`(,|\s)` then `\s`, otherwise grow the group through non-terminal
characters. -/
def tfScanGo : Str → Nat → Option Nat
  | c1 :: c2 :: rest, L =>
    if (c1 = ',' || isPySpace c1) && isPySpace c2 then some L
    else if !isTermCh c1 then tfScanGo (c2 :: rest) (L + 1)
    else none
  | _, _ => none

/-- Try to match `([^.!?]{24,}?)(,|\s)\s` at the start of `s`;
returns the length of the captured group. -/
def tfTry (s : Str) : Option Nat :=
  let first24 := s.take 24
  if first24.length = 24 && first24.all (fun c => !isTermCh c) then
    tfScanGo (s.drop 24) 24
  else none

/-- Scanner for `re.sub(r'([^.!?]{24,}?)(,|\s)\s', r'\1. ', text)`. -/
def refineLongGo (fuel : Nat) (s : Str) : Str :=
  match fuel, s with
  | 0, s => s
  | _ + 1, [] => []
  | f + 1, c :: cs =>
    match tfTry (c :: cs) with
    | some L => (c :: cs).take L ++ '.' :: ' ' :: refineLongGo f ((c :: cs).drop (L + 2))
    | none => c :: refineLongGo f cs

/-- The over-long-run sentence-break heuristic of `refine_ko`. -/
def refineLong (s : Str) : Str := refineLongGo s.length s

/-- `refine_ko` from `apps/api/routes/chat.py`: the three `BAD_PATTERNS`
substitutions in order, then the long-run break. -/
def refine_ko (s : Str) : Str :=
  refineLong (subBoundary (("합니다").toList) (("해요").toList)
    (subLit (("합니다.").toList) (("해요.").toList)
      (subLit (("하고 있습니다").toList) (("하고 있다").toList) s)))

/-! ### `drop_non_korean_lines` (routes version, ratio threshold 0.2) -/

/-- Number of Hangul characters in a line (`re.findall(r'[가-힣]', ln)`). -/
def countHangul (l : Str) : Nat := l.countP (fun c => isHangul c)

/-- Number of CJK-ideograph characters in a line. -/
def countHanja (l : Str) : Nat := l.countP (fun c => isHanja c)

/-- Number of Latin letters in a line. -/
def countLatin (l : Str) : Nat := l.countP (fun c => isLatinLetter c)

/-- The keep condition of `drop_non_korean_lines`: non-blank, and
`hangul/total >= 0.2 and hanja <= 2 and latin <= 5`.  For line lengths
far below `10^14` the float comparison `hangul/total >= 0.2` agrees
exactly with the rational comparison `5*hangul >= total` used here. -/
def keepKoLine (ln : Str) : Bool :=
  !(pyStrip ln).isEmpty && decide (0 < ln.length) &&
  decide (ln.length ≤ 5 * countHangul ln) &&
  decide (countHanja ln ≤ 2) && decide (countLatin ln ≤ 5)

/-- `drop_non_korean_lines` from `apps/api/routes/chat.py`. -/
def drop_non_korean_lines (s : Str) : Str :=
  joinSep ['\n'] ((pySplitlines s).filter keepKoLine)

/-! ### Bullet markers -/

/-- The bullet glyphs of `[-•–—·◦]`. -/
def bulletGlyph (c : Char) : Bool :=
  c = '-' || c = '•' || c = '–' || c = '—' || c = '·' || c = '◦'

/-- Circled numbers `[①-⑳]`. -/
def circledNum (c : Char) : Bool := 0x2460 ≤ c.toNat && c.toNat ≤ 0x2473

/-- Length of a `\(?\d+\)?[.)]` marker at the start of `s` (the
deterministic outcome of the greedy/backtracking match). -/
def numMarkerLen (s : Str) : Option Nat :=
  let pr : Nat × Str := match s with
    | '(' :: r => (1, r)
    | _ => (0, s)
  let ds := pr.2.takeWhile (fun c => c.isDigit)
  if ds = [] then none
  else
    match pr.2.drop ds.length with
    | ')' :: '.' :: _ => some (pr.1 + ds.length + 2)
    | ')' :: ')' :: _ => some (pr.1 + ds.length + 2)
    | ')' :: _ => some (pr.1 + ds.length + 1)
    | '.' :: _ => some (pr.1 + ds.length + 1)
    | _ => none

/-- Length of a `(?:[-•–—·◦]|[①-⑳]|\(?\d+\)?[.)])` marker at the start
of `s` (the wide marker class of the de-bulleting code). -/
def markerLenWide (s : Str) : Option Nat :=
  match s with
  | c :: _ => if bulletGlyph c || circledNum c then some 1 else numMarkerLen s
  | [] => none

/-- Length of a `(?:[-•]|\(?\d+\)?[.)])` marker at the start of `s`
(the narrow marker class of the choices extractor). -/
def markerLenShort (s : Str) : Option Nat :=
  match s with
  | c :: _ => if c = '-' || c = '•' then some 1 else numMarkerLen s
  | [] => none

/-- Does a wide marker followed by one whitespace character start at the
head of `s`?  (The body of `re.search(r'^(?:...)\s', ..., flags=re.M)`
at one candidate position.) -/
def bulletAtWithWs (s : Str) : Bool :=
  match markerLenWide s with
  | some L =>
    match s.drop L with
    | c :: _ => isPySpace c
    | [] => false
  | none => false

/-- Multiline search for a bullet-marker line start. -/
def bulletSearchGo (atStart : Bool) : Str → Bool
  | [] => false
  | c :: cs =>
    if atStart && bulletAtWithWs (c :: cs) then true
    else bulletSearchGo (c = '\n') cs

/-- `re.search(r'^(?:[-•–—·◦]|[①-⑳]|\(?\d+\)?[.)])\s', s, flags=re.M)`. -/
def bulletSearchM (s : Str) : Bool := bulletSearchGo true s

/-- Strip a leading wide bullet marker and following whitespace from a
line (`re.sub(r'^(?:...)\s*', '', ln)`). -/
def deBulletLine (ln : Str) : Str :=
  match markerLenWide ln with
  | some L => (ln.drop L).dropWhile (fun c => isPySpace c)
  | none => ln

/-- Does the line end with a sentence terminal (`re.search(r'[.!?]$', ln)`)? -/
def endsWithTerm (ln : Str) : Bool :=
  match ln.getLast? with
  | some c => isTermCh c
  | none => false

/-- `_bullets_to_scene` from `apps/api/routes/chat.py`. -/
def bullets_to_scene (s : Str) : Str :=
  let lines := ((pySplitlines s).map pyStrip).filter (fun l => l ≠ [])
  let out := lines.map (fun ln =>
    let l2 := deBulletLine ln
    if endsWithTerm l2 then l2 else l2 ++ ['.'])
  pyStrip (joinSep [' '] (out.take 5))

/-! ### Sentence splitting and scene enrichment -/

/-- Is the last character pushed onto the reversed current piece a
sentence terminal (the `(?<=[.!?])` lookbehind)? -/
def headIsTermRev (cur : Str) : Bool :=
  match cur with
  | p :: _ => isTermCh p
  | [] => false

/-- Splitter for `re.split(r'(?<=[.!?])\s+', head)`: a split starts at a
whitespace character preceded by a terminal.  Whitespace after the
first separator character lands at the front of the next piece instead
of being consumed, which is equalised by the `strip` every caller
applies (`[s.strip() for s in re.split(...) if s.strip()]`). -/
def splitSentsGo (cur : Str) : Str → List Str
  | [] => [cur.reverse]
  | c :: cs =>
    if isPySpace c && headIsTermRev cur then cur.reverse :: splitSentsGo [] cs
    else splitSentsGo (c :: cur) cs

/-- The stripped, non-empty sentence pieces of a scene text
(`[s.strip() for s in re.split(r'(?<=[.!?])\s+', head) if s.strip()]`). -/
def sentsOf (head : Str) : List Str :=
  ((splitSentsGo [] head).map pyStrip).filter (fun l => l ≠ [])

/-- The `sensory_pool` filler sentences of `_enrich_scene_generic`
(routes version). -/
def sensoryPool : List Str :=
  [("공기가 살짝 흔들렸다.").toList,
   ("희미한 소음이 바닥을 스쳤다.").toList,
   ("빛과 그림자가 얕게 번졌다.").toList,
   ("은은한 냄새가 맴돈다.").toList,
   ("멀리서 작은 웅성거림이 이어졌다.").toList]

/-- The padding loop `while len(sents) < min_sent and len(sents) <
max_sent: sents.append(random.choice(sensory_pool))`: appends
`min(min_sent, max_sent) - len(sents)` filler sentences drawn from the
global generator stream `g`. -/
def padSents (g : Nat → Nat) (ss : List Str) (minS maxS : Nat) : List Str :=
  ss ++ (List.range (min minS maxS - ss.length)).map
    (fun i => sensoryPool.getD (g i % sensoryPool.length) [])

/-- The sentence segments the enrichment step keeps:
padded to the minimum, truncated to the maximum. -/
def enrichSegs (g : Nat → Nat) (head : Str) (minS maxS : Nat) : List Str :=
  (padSents g (sentsOf head) minS maxS).take maxS

/-- `_enrich_scene_generic` from `apps/api/routes/chat.py`. -/
def enrich_scene_generic (g : Nat → Nat) (head : Str) (minS maxS : Nat) : Str :=
  pyStrip (joinSep [' '] (enrichSegs g head minS maxS))

/-! ### Choice synthesis -/

/-- Close a reversed Hangul run: kept only when at least 2 characters
long (`[가-힣]{2,}`). -/
def hrClose (cur : Str) : List Str :=
  if 2 ≤ cur.length then [cur.reverse] else []

/-- Worker collecting maximal Hangul runs of length at least 2. -/
def hangulRunsGo (cur : Str) : Str → List Str
  | [] => hrClose cur
  | c :: cs =>
    if isHangul c then hangulRunsGo (c :: cur) cs
    else hrClose cur ++ hangulRunsGo [] cs

/-- `re.findall(r'[가-힣]{2,}', s)`. -/
def hangulRuns (s : Str) : List Str := hangulRunsGo [] s

/-- The fixed `base` candidates of `_synthesize_choices` (routes
version). -/
def synthBase : List Str :=
  [("조용히 주변을 더 살핀다").toList,
   ("가까운 사람에게 먼저 말을 건다").toList,
   ("잠시 멈춰 상황을 가늠한다").toList]

/-- `_synthesize_choices` from `apps/api/routes/chat.py`; `S` models
`random.Random(hash(head) & 0xffffffff).sample(pool, 3)` as a pure
function of the seed text and the pool. -/
def synthesize_choices (S : Str → List Str → List Str) (head : Str) : List Str :=
  let nouns := (hangulRuns head).take 6
  let situ := nouns.flatMap (fun w =>
    [w ++ (" 쪽을 흘끗 살핀다").toList, w ++ (" 근처로 살짝 이동한다").toList])
  let pool := dedupFirst (synthBase ++ situ)
  if 3 ≤ pool.length then S head pool else (pool ++ synthBase).take 3

/-! ### Choices-block extraction -/

/-- The canonical choices header token. -/
def selSeq : Str := ("[선택지]").toList

/-- Characters stripped by `.strip("()[]")`. -/
def isParenBr (c : Char) : Bool := c = '(' || c = ')' || c = '[' || c = ']'

/-- `.strip("()[]")`. -/
def stripParens (l : Str) : Str :=
  ((l.dropWhile (fun c => isParenBr c)).reverse.dropWhile (fun c => isParenBr c)).reverse

/-- One line of the choices extractor:
`m = re.match(r"^(?:[-•]|\(?\d+\)?[.)])\s*(.+)$", s)` followed by
`m.group(1).strip().strip("()[]")`.  After the marker, the stripped
group equals the strip of the whole remainder. -/
def parseBulletLine (s : Str) : Option Str :=
  match markerLenShort s with
  | some L =>
    let r := s.drop L
    if r = [] then none else some (stripParens (pyStrip r))
  | none => none

/-- The extraction loop: stop at the first blank line, collect marker
lines, skip other non-blank lines. -/
def extractGo : List Str → List Str
  | [] => []
  | ln :: ls =>
    let s := pyStrip ln
    if s = [] then []
    else
      match parseBulletLine s with
      | some c => c :: extractGo ls
      | none => extractGo ls

/-- Choices extracted from the text after the `[선택지]` header. -/
def extractFromTail (tail : Str) : List Str := extractGo (pySplitlines tail)

/-! ### `postprocess_trpg` (routes version) -/

/-- The normalised whole text: bracket-only lines removed, stripped,
line-wise right-stripped and rejoined. -/
def ppWhole (text : Str) : Str :=
  joinSep ['\n'] ((pySplitlines (pyStrip (removeTagLines text))).map pyRstrip)

/-- The choices extracted from the raw text (empty when no `[선택지]`
header survives the meta-line removal). -/
def ppExtracted (text : Str) : List Str :=
  let whole := ppWhole text
  if (findSub selSeq whole).isSome then extractFromTail (takeAfterSub selSeq whole)
  else []

/-- The scene candidate after `refine_ko`, the language filter and the
conditional de-bulleting. -/
def ppHeadCleaned (text : Str) : Str :=
  let head := pyStrip (takeBeforeSub selSeq (ppWhole text))
  let head := refine_ko head
  let head := drop_non_korean_lines head
  if bulletSearchM head then bullets_to_scene head else head

/-- The final scene text (after enrichment) used both for output and as
the synthesis seed text. -/
def ppHeadFinal (text : Str) (g : Nat → Nat) : Str :=
  enrich_scene_generic g (ppHeadCleaned text) 4 6

/-- `str.maketrans`-based fullwidth-punctuation translation of the
final cleanup. -/
def translateChar (c : Char) : Str :=
  if c = '，' then (", ").toList
  else if c = '。' then (". ").toList
  else if c = '！' then ("! ").toList
  else if c = '？' then ("? ").toList
  else if c = '；' then ("; ").toList
  else if c = '：' then (": ").toList
  else if c = '（' then ['(']
  else if c = '）' then [')']
  else if c = '【' then ['[']
  else if c = '】' then [']']
  else if c = '「' then ['"']
  else if c = '」' then ['"']
  else if c = '、' then (", ").toList
  else [c]

/-- `out.translate(trans)`. -/
def translateAll (s : Str) : Str := s.flatMap translateChar

/-- `re.sub(r'[㐀-鿿]+', '', out)`. -/
def cjkStrip (s : Str) : Str := s.filter (fun c => !isCjkWide c)

/-- Emit a finished whitespace run for `re.sub(r'\s{2,}', ' ', out)`:
runs of length at least 2 collapse to one space, single whitespace
characters stay as they are. -/
def wsFlush (run : Str) : Str := if 2 ≤ run.length then [' '] else run.reverse

/-- Worker for the whitespace-collapsing pass (`run` is the pending
whitespace run, reversed). -/
def wsCollapseGo (run : Str) : Str → Str
  | [] => wsFlush run
  | c :: cs =>
    if isPySpace c then wsCollapseGo (c :: run) cs
    else wsFlush run ++ c :: wsCollapseGo [] cs

/-- `re.sub(r'\s{2,}', ' ', out)`. -/
def wsCollapse (s : Str) : Str := wsCollapseGo [] s

/-- Worker for `re.sub(r'\s+([,.!?;:])', r'\1', out)`: drop a pending
whitespace run when it is followed by one of the six punctuation
characters. -/
def punctDelGo (run : Str) : Str → Str
  | [] => run.reverse
  | c :: cs =>
    if isPySpace c then punctDelGo (c :: run) cs
    else if isPunct6 c && run ≠ [] then c :: punctDelGo [] cs
    else run.reverse ++ c :: punctDelGo [] cs

/-- `re.sub(r'\s+([,.!?;:])', r'\1', out)`. -/
def punctDel (s : Str) : Str := punctDelGo [] s

/-- `re.sub(r'([,.!?;:])(?!\s|$)', r'\1 ', out)`: insert a space after
punctuation not followed by whitespace or the end. -/
def punctAdd : Str → Str
  | [] => []
  | [c] => [c]
  | c :: d :: rest =>
    if isPunct6 c && !isPySpace d then c :: ' ' :: punctAdd (d :: rest)
    else c :: punctAdd (d :: rest)

/-- The final cosmetic passes shared by both branches of
`postprocess_trpg`, ending in `.strip()`. -/
def ppCleanupFinal (s : Str) : Str :=
  pyStrip (punctAdd (punctDel (wsCollapse (cjkStrip (translateAll s)))))

/-- `re.sub(r'\s*\[선택지\][\s\S]*$', '', head)`: the leftmost match
starts at the whitespace run just before the first header occurrence
and removes everything from there on. -/
def removeSelSuffix (s : Str) : Str :=
  match findSub selSeq s with
  | some j => pyRstrip (s.take j)
  | none => s

/-- `desired_choices = max(0, min(3, int(desired_choices or 0)))`. -/
def clampChoices (d : Int) : Nat := (min 3 (max 0 d)).toNat

/-- The deduplicated, truncated choice list written into the output
choices block (`uniq` in `postprocess_trpg`); empty when the clamped
desired count is zero. -/
def postChoices (text : Str) (d : Int) (g : Nat → Nat)
    (S : Str → List Str → List Str) : List Str :=
  let n := clampChoices d
  if n = 0 then []
  else
    let cs := ppExtracted text
    let cs :=
      if cs.length < n then
        cs ++ (synthesize_choices S (ppHeadFinal text g)).take (n - cs.length)
      else cs
    (dedupNonempty cs).take n

/-- `postprocess_trpg` from `apps/api/routes/chat.py`.  `g` is the
global-generator stream consumed by the enrichment padding, `S` the
seeded sampler of `_synthesize_choices`. -/
def postprocess_trpg (text : Str) (d : Int) (g : Nat → Nat)
    (S : Str → List Str → List Str) : Str :=
  let n := clampChoices d
  if n = 0 then ppCleanupFinal (pyStrip (removeSelSuffix (ppHeadFinal text g)))
  else
    let uniq := postChoices text d g S
    let out := pyStrip (ppHeadFinal text g)
    let out :=
      if uniq ≠ [] then
        out ++ ("\n\n").toList ++ selSeq ++ '\n' ::
          joinSep ['\n'] (uniq.map (fun c => ("- ").toList ++ c))
      else out
    ppCleanupFinal out

/-! ### Session window (`apps/api/routes/chat.py` and `app_chat.py`) -/

/-- One conversation turn entry (`{"role": ..., "content": ...}`). -/
structure ChatMsg where
  role : Str
  content : Str
deriving DecidableEq

/-- `MAX_TURNS = 12` (used for the stored-history truncation in both
chat endpoints). -/
def MAX_TURNS : Nat := 12

/-- `MAX_TURNS_QA = 12`. -/
def MAX_TURNS_QA : Nat := 12

/-- `MAX_TURNS_TRPG = 6`. -/
def MAX_TURNS_TRPG : Nat := 6

/-- The per-mode prompt window of `build_messages`:
`keep = (MAX_TURNS_TRPG if mode=="trpg" else MAX_TURNS_QA)*2`. -/
def promptKeepWindow (isTrpg : Bool) : Nat :=
  (if isTrpg then MAX_TURNS_TRPG else MAX_TURNS_QA) * 2

/-- One chat call's history update:
`sess[key].extend([user, assistant]); sess[key] = sess[key][-MAX_TURNS*2:]`
(identical in both endpoints, for every mode). -/
def appendChatTurn (h : List ChatMsg) (u a : ChatMsg) : List ChatMsg :=
  pyTail (MAX_TURNS * 2) (h ++ [u, a])

/-- The stored history after a sequence of chat calls starting from an
empty session. -/
def chatHistory (ps : List (ChatMsg × ChatMsg)) : List ChatMsg :=
  ps.foldl (fun h p => appendChatTurn h p.1 p.2) []

/-- The flattened stream of appended entries. -/
def flatTurns (ps : List (ChatMsg × ChatMsg)) : List ChatMsg :=
  ps.flatMap (fun p => [p.1, p.2])

/-! ### LLM-failure classification in the chat endpoint -/

/-- Leading fragment of the model-not-found message. -/
def modelNotFoundMsgPre : Str := ("모델 '").toList

/-- Middle fragment of the model-not-found message. -/
def modelNotFoundMsgMid : Str :=
  ("'이 Ollama에 설치되어 있지 않습니다. Ollama 컨테이너에서 'ollama pull ").toList

/-- Trailing fragment of the model-not-found message. -/
def modelNotFoundMsgPost : Str := ("' 명령을 실행해주세요.").toList

/-- The operator-actionable message naming the missing model and the
`ollama pull` remediation. -/
def modelNotFoundMsg (m : Str) : Str :=
  modelNotFoundMsgPre ++ m ++ modelNotFoundMsgMid ++ m ++ modelNotFoundMsgPost

/-- `"not found" in error_msg.lower() or "404" in error_msg`. -/
def isModelNotFoundError (e : Str) : Bool :=
  strContains (asciiLower e) (("not found").toList) || strContains e (("404").toList)

/-- The `(LLM 호출 오류) ` answer marker. -/
def llmErrorPre : Str := ("(LLM 호출 오류) ").toList

/-- The `answer` string returned by the chat endpoint's
LLM-invocation `except` branch (it returns a `JSONResponse`, it does
not re-raise). -/
def chatErrorAnswer (useModel e : Str) : Str :=
  llmErrorPre ++ (if isModelNotFoundError e then modelNotFoundMsg useModel else e)

/-! ### `app_chat.py`: polishing with choices kept -/

/-- `polish` from `app_chat.py`.  `llmOut` models the outcome of the
`ChatOllama` invocation: `none` when `polisher.invoke` (or anything in
the `try` block) raises, `some c` for a returned content string.  On
failure the original text is returned; a falsy (empty) content also
falls back to the input (`... or text`). -/
def polish (llmOut : Option Str) (text : Str) : Str :=
  match llmOut with
  | none => text
  | some c => if c = [] then text else c

/-- Keep condition of `drop_non_korean_lines` in `app_chat.py`: keep
lines containing Hangul; otherwise drop only lines with a run of at
least 4 CJK ideographs. -/
def hanjaRun4Go (k : Nat) : Str → Bool
  | [] => false
  | c :: cs =>
    if isHanja c then (if 3 ≤ k then true else hanjaRun4Go (k + 1) cs)
    else hanjaRun4Go 0 cs

/-- `re.search(r'[一-鿿]{4,}', ln)`. -/
def hanjaRun4 (ln : Str) : Bool := hanjaRun4Go 0 ln

/-- Keep condition of the `app_chat.py` language filter. -/
def keepLineAC (ln : Str) : Bool :=
  if ln.any (fun c => isHangul c) then true else !hanjaRun4 ln

/-- `drop_non_korean_lines` from `app_chat.py`. -/
def dropNonKoreanAC (s : Str) : Str :=
  joinSep ['\n'] ((pySplitlines s).filter keepLineAC)

/-- `re.sub(r'\s*["”]\s*$', '', ln)`: remove one trailing quote and the
whitespace around it; no change when the rstripped line does not end in
a quote. -/
def quoteStripEnd (ln : Str) : Str :=
  let u := pyRstrip ln
  match u.getLast? with
  | some c => if c = '"' || c = '”' then pyRstrip u.dropLast else ln
  | none => ln

/-- `_bullets_to_scene` from `app_chat.py` (adds the trailing-quote
removal to the routes version). -/
def bulletsToSceneAC (s : Str) : Str :=
  let lines := ((pySplitlines s).map pyStrip).filter (fun l => l ≠ [])
  let out := lines.map (fun ln =>
    let l2 := quoteStripEnd (deBulletLine ln)
    if endsWithTerm l2 then l2 else l2 ++ ['.'])
  pyStrip (joinSep [' '] (out.take 5))

/-- The `sensory_pool` of `_enrich_scene_generic` in `app_chat.py`. -/
def sensoryPoolAC : List Str :=
  [("공기가 살짝 흔들렸다.").toList,
   ("희미한 소리와 발걸음이 겹쳐졌다.").toList,
   ("빛과 그림자가 얕게 번졌다.").toList,
   ("어딘가에서 은은한 냄새가 맴돌았다.").toList,
   ("멀리서 작은 웅성거림이 이어졌다.").toList,
   ("바닥을 스치는 바람이 짧게 지나갔다.").toList]

/-- The k-th draw of `random.choice(sensory_pool)` from the global
stream. -/
def sensoryDrawAC (g : Nat → Nat) (k : Nat) : Str :=
  sensoryPoolAC.getD (g k % sensoryPoolAC.length) []

/-- The bounded repair loop of `_enrich_scene_generic` in
`app_chat.py` (`while len(sents) < min_sent and i < 4`, with the
`len(sents) >= max_sent` break); `k` counts global-generator draws. -/
def enrichLoopAC (g : Nat → Nat) (hint : Str) : Nat → Nat → List Str → List Str
  | 0, _, sents => sents
  | f + 1, k, sents =>
    if 4 ≤ sents.length then sents
    else
      let next : Nat × List Str :=
        if sents.length = 0 then (k + 1, sents ++ [sensoryDrawAC g k])
        else if sents.length = 1 then (k, sents.take 1 ++ [hint] ++ sents.drop 1)
        else (k + 1, sents ++ [sensoryDrawAC g k])
      if 6 ≤ next.2.length then next.2 else enrichLoopAC g hint f next.1 next.2

/-- `_enrich_scene_generic` from `app_chat.py` (with `min_sent=4`,
`max_sent=6`, as called by `polish_trpg_keep_choices`).  The hint line
is built from the first Hangul run; when there is none a pool sentence
is drawn from the global generator. -/
def enrichAC (g : Nat → Nat) (head : Str) : Str :=
  let sents := sentsOf head
  let hk : Str × Nat :=
    match hangulRuns head with
    | w :: _ => (w ++ (" 주변에 얕은 소음이 겹쳐졌다.").toList, 0)
    | [] => (sensoryDrawAC g 0, 1)
  pyStrip (joinSep [' '] ((enrichLoopAC g hk.1 4 hk.2 sents).take 6))

/-- The defensive head pipeline of `polish_trpg_keep_choices`:
filter, de-bullet, enrich, filter, de-bullet, enrich.  `g1` and `g2`
are the global-generator streams at the two enrichment calls. -/
def acHeadPipeline (g1 g2 : Nat → Nat) (h : Str) : Str :=
  let h := dropNonKoreanAC h
  let h := if bulletSearchM h then bulletsToSceneAC h else h
  let h := enrichAC g1 h
  let h := dropNonKoreanAC h
  let h := if bulletSearchM h then bulletsToSceneAC h else h
  enrichAC g2 h

/-- `re.split(r"(\n?\[선택지\][\s\S]*)", text, maxsplit=1)` as a
(head, tail) pair: the tail starts at the first header occurrence,
including one preceding newline when present. -/
def splitKeep (text : Str) : Str × Str :=
  match findSub selSeq text with
  | none => (text, [])
  | some j =>
    if 0 < j && text.getD (j - 1) ' ' = '\n' then (text.take (j - 1), text.drop (j - 1))
    else (text.take j, text.drop j)

/-- The polished-and-repaired head of `polish_trpg_keep_choices`. -/
def polishedHeadAC (llmOut : Option Str) (g1 g2 : Nat → Nat) (text : Str) : Str :=
  let head := (splitKeep text).1
  acHeadPipeline g1 g2 (if pyStrip head ≠ [] then polish llmOut head else head)

/-- `polish_trpg_keep_choices` from `app_chat.py`. -/
def polish_trpg_keep_choices (llmOut : Option Str) (g1 g2 : Nat → Nat)
    (text : Str) : Str :=
  let tail := (splitKeep text).2
  let hp := polishedHeadAC llmOut g1 g2 text
  if tail ≠ [] then pyStrip (pyRstrip hp ++ ("\n\n").toList ++ pyLstrip tail)
  else pyStrip (pyRstrip hp)

/-- The choices-block line parse of `app_chat.py`'s `postprocess_trpg`
(lines after the header: stop at a blank line, take marker lines, take
plain lines not starting with `<` or `[`). -/
def selEntriesGo : List Str → List Str
  | [] => []
  | ln :: ls =>
    let s := pyStrip ln
    if s = [] then []
    else
      match parseBulletLine s with
      | some c => c :: selEntriesGo ls
      | none =>
        if s.getD 0 ' ' ≠ '<' && s.getD 0 ' ' ≠ '[' then
          stripParens s :: selEntriesGo ls
        else selEntriesGo ls

/-- The bullet entries of the choices portion of a text: mirrors
`re.search(r"\[선택지\][\s\S]*", s)` followed by
`block.group(0).splitlines()[1:]` and the line parse above, anchored at
the first header occurrence. -/
def selEntries (s : Str) : List Str :=
  match findSub selSeq s with
  | some j => selEntriesGo ((pySplitlines (s.drop j)).drop 1)
  | none => []

/-- One step of the choices-block line parse: how a single line `ln`
extends a parse result `r` of the following lines. -/
def selStep (ln : Str) (r : List Str) : List Str :=
  let s := pyStrip ln
  if s = [] then []
  else
    match parseBulletLine s with
    | some c => c :: r
    | none =>
      if s.getD 0 ' ' ≠ '<' && s.getD 0 ' ' ≠ '[' then stripParens s :: r
      else r

/-! ### `apps/api/routes/game_turn.py`: structured turn parsing -/

/-- `UserStatusChange` (pydantic); the delta fields and item lists. -/
structure UserStatusChange where
  hp_delta : Int := 0
  mp_delta : Int := 0
  items_add : List Str := []
  items_remove : List Str := []
  gold_delta : Int := 0
deriving DecidableEq

/-- `CharacterStatusChange` (pydantic). -/
structure CharacterStatusChange where
  char_ref_id : Int
  hp_delta : Int := 0
  mp_delta : Int := 0
  items_add : List Str := []
  items_remove : List Str := []
  gold_delta : Int := 0
deriving DecidableEq

/-- `DialogueItem` (pydantic); the free-form `meta` dict carries no
claim-relevant structure and is not modelled. -/
structure DialogueItem where
  speaker_type : Str
  speaker_id : Option Int := none
  name : Option Str := none
  text : Str
  is_action : Bool := false
deriving DecidableEq

/-- `StatusChanges` (pydantic). -/
structure StatusChanges where
  user : UserStatusChange
  characters : List CharacterStatusChange := []
deriving DecidableEq

/-- `CharacterState` (pydantic session snapshot); the free-form
`attributes` dict is not modelled (no claim mentions it). -/
structure CharacterState where
  id : Int
  name : Str := []
  image_url : Option Str := none
  hp : Int := 100
  hp_max : Int := 100
  mp : Int := 0
  mp_max : Int := 0
  gold : Int := 0
deriving DecidableEq

/-- The optional `updated_combat` dict of the LLM response. -/
structure CombatUpdate where
  in_combat : Option Bool := none
  phase : Option Str := none
  monsters : Option (List CharacterState) := none
deriving DecidableEq

/-- `GameTurnLLMResponse` (pydantic): the schema every parse outcome
satisfies. -/
structure GameTurnLLMResponse where
  narration : Str
  dialogues : List DialogueItem
  status_changes : StatusChanges
  updated_combat : Option CombatUpdate := none
deriving DecidableEq

/-- Python `s.split(pat)` (all occurrences, left to right). -/
def splitOnStrGo (pat : Str) (cur : Str) : Nat → Str → List Str
  | 0, s => [cur.reverse ++ s]
  | _ + 1, [] => [cur.reverse]
  | f + 1, c :: cs =>
    if pat ≠ [] && leadsWith pat (c :: cs) then
      cur.reverse :: splitOnStrGo pat [] f ((c :: cs).drop pat.length)
    else splitOnStrGo pat (c :: cur) f cs

/-- Python `s.split(pat)`. -/
def splitOnStr (pat s : Str) : List Str := splitOnStrGo pat [] (s.length + 1) s

/-- Opening brace character (`{`). -/
def braceOpen : Char := '\x7b'

/-- Closing brace character (`}`). -/
def braceClose : Char := '\x7d'

/-- Python `s.rfind(c)` for a single character. -/
def rfindChar (c : Char) (s : Str) : Option Nat :=
  match findSub [c] s.reverse with
  | some k => some (s.length - 1 - k)
  | none => none

/-- The first-brace-to-last-brace slice of `extract_json`. -/
def braceSlice (c : Str) : Str :=
  match findSub [braceOpen] c, rfindChar braceClose c with
  | some st, some en => if st < en then (c.drop st).take (en + 1 - st) else c
  | _, _ => c

/-- `cleaned.lstrip().lower().startswith("json")`. -/
def startsWithJson (c : Str) : Bool :=
  leadsWith (("json").toList) (asciiLower (pyLstrip c))

/-- `c.split("\n", 1)[1]`: `none` models the `IndexError` raised when
there is no newline. -/
def dropFirstLine (c : Str) : Option Str :=
  match findSub ['\n'] c with
  | some j => some (c.drop (j + 1))
  | none => none

/-- `extract_json` from `apps/api/routes/game_turn.py`; `none` models a
raised exception (the `[1]` index on a one-element split). -/
def extract_json (text : Str) : Option Str :=
  let cleaned := pyStrip text
  let step1 : Option Str :=
    if leadsWith (("```").toList) cleaned then
      let parts := splitOnStr (("```").toList) cleaned
      if 3 ≤ parts.length then
        let c := parts.getD 1 []
        if startsWithJson c then dropFirstLine c else some c
      else some (subLit (("```").toList) [] cleaned)
    else some cleaned
  match step1 with
  | none => none
  | some c => some (braceSlice (pyStrip c))

/-- The fixed placeholder narration of the fallback response. -/
def fallbackPlaceholder : Str := ("이번 턴의 설명을 불러오는 데 실패했습니다.").toList

/-- `build_fallback_llm_response` from `apps/api/routes/game_turn.py`. -/
def build_fallback_llm_response (raw_text : Str) : GameTurnLLMResponse :=
  let narr0 := pyStrip raw_text
  let narr := if 400 < narr0.length then narr0.take 400 ++ ("...").toList else narr0
  { narration := if narr = [] then fallbackPlaceholder else narr
    dialogues := []
    status_changes := { user := {}, characters := [] } }

/-- The three-stage parse of `play_turn` (step 8): direct
`model_validate_json`, then `extract_json` plus re-validation, then the
fallback.  `validate` models pydantic's `model_validate_json` (`none`
when it raises); an exception inside `extract_json` is caught by the
same `except` and also falls through to the fallback.  The function is
total: every input yields a schema-valid `GameTurnLLMResponse`. -/
def parse_structured (validate : Str → Option GameTurnLLMResponse)
    (raw_text : Str) : GameTurnLLMResponse :=
  match validate raw_text with
  | some r => r
  | none =>
    match extract_json raw_text with
    | some cleaned =>
      match validate cleaned with
      | some r => r
      | none => build_fallback_llm_response raw_text
    | none => build_fallback_llm_response raw_text

/-! ### `play_turn` status-delta clamping -/

/-- The player update of `play_turn`:
`hp = max(0, min(hp_max, hp + hp_delta))`, same for `mp`,
`gold = max(0, gold + gold_delta)`. -/
def applyUserStatus (p : CharacterState) (u : UserStatusChange) : CharacterState :=
  { p with
    hp := max 0 (min p.hp_max (p.hp + u.hp_delta))
    mp := max 0 (min p.mp_max (p.mp + u.mp_delta))
    gold := max 0 (p.gold + u.gold_delta) }

/-- The NPC update of `play_turn` for one matched character change. -/
def applyNpcStatus (npc : CharacterState) (c : CharacterStatusChange) : CharacterState :=
  { npc with
    hp := max 0 (min npc.hp_max (npc.hp + c.hp_delta))
    mp := max 0 (min npc.mp_max (npc.mp + c.mp_delta))
    gold := max 0 (npc.gold + c.gold_delta) }

/-- Apply one `CharacterStatusChange` to the first NPC with the
matching id (the inner loop with `break`). -/
def updateFirstNpc : List CharacterState → CharacterStatusChange → List CharacterState
  | [], _ => []
  | x :: xs, c =>
    if x.id = c.char_ref_id then applyNpcStatus x c :: xs
    else x :: updateFirstNpc xs c

/-- The full NPC status-change loop of `play_turn`. -/
def applyCharacterChanges (npcs : List CharacterState)
    (cs : List CharacterStatusChange) : List CharacterState :=
  cs.foldl updateFirstNpc npcs

/-! ### `MongoChatRepository.insert_message` -/

/-- A stored `chat_message` document (timestamps and the optional
`meta` dict carry no claim-relevant structure and are not modelled). -/
structure ChatMessageDoc where
  session_id : Nat
  user_id : Str
  role : Str
  content : Str
  request_id : Option Str := none
deriving DecidableEq

/-- The duplicate-check filter `{"session_id": ..., "request_id": ...}`. -/
def msgKeyMatch (sid : Nat) (rid : Str) (d : ChatMessageDoc) : Bool :=
  d.session_id = sid && d.request_id = some rid

/-- Python truthiness of the `request_id` argument: the guards
`if request_id:` fire only for a non-`None`, non-empty string, and the
same truthy value is what gets stored in the document (a falsy
`request_id` leaves the field out of `message_doc`). -/
def ridKey (rid : Option Str) : Option Str :=
  match rid with
  | some r => if r = [] then none else some r
  | none => none

/-- `insert_message` from
`adapters/persistence/mongo/chat_repository_adapter.py`, over an
explicit collection state (`db` is the list of stored documents;
`find_one` returns the first match).  `insertFails` models
`insert_one` raising; a failed insert stores nothing.  The result is
the new collection state and the returned document (`none` models the
re-raised exception).  All three `if request_id:` guards — the
pre-insert duplicate check, the `message_doc["request_id"]`
assignment and the failure-recovery re-query — use Python truthiness,
so an empty-string id behaves like `None`. -/
def insert_message (db : List ChatMessageDoc) (sid : Nat)
    (uid role content : Str) (rid : Option Str) (insertFails : Bool) :
    List ChatMessageDoc × Option ChatMessageDoc :=
  let attempt : List ChatMessageDoc × Option ChatMessageDoc :=
    let doc : ChatMessageDoc :=
      { session_id := sid, user_id := uid, role := role,
        content := content, request_id := ridKey rid }
    if !insertFails then (db ++ [doc], some doc)
    else
      match ridKey rid with
      | some r =>
        match db.find? (msgKeyMatch sid r) with
        | some ex => (db, some ex)
        | none => (db, none)
      | none => (db, none)
  match ridKey rid with
  | some r =>
    match db.find? (msgKeyMatch sid r) with
    | some ex => (db, some ex)
    | none => attempt
  | none => attempt

/-- Number of stored messages with a given idempotency key. -/
def countMsgKey (db : List ChatMessageDoc) (sid : Nat) (r : Str) : Nat :=
  (db.filter (msgKeyMatch sid r)).length

/-! ### Concrete oracle instances used by witnesses and counterexamples -/

/-- A constant-zero global-generator stream (one possible generator
state). -/
def gZero : Nat → Nat := fun _ => 0

/-- A constant-one global-generator stream (another possible generator
state, e.g. after earlier draws advanced the generator). -/
def gOne : Nat → Nat := fun _ => 1

/-- A concrete seeded-sampler instance: take the first three pool
entries. -/
def sampleTake3 : Str → List Str → List Str := fun _ pool => pool.take 3

/-- A concrete seeded-sampler instance sensitive to the pool contents:
take three entries after the fixed base block. -/
def sampleSkip3 : Str → List Str → List Str := fun _ pool => (pool.drop 3).take 3

/-- A validation oracle on which every parse attempt fails. -/
def validateNone : Str → Option GameTurnLLMResponse := fun _ => none

/-- The bracket characters from which a `[선택지]` marker could be
forged downstream: `noBr s` says `s` contains neither `[` nor the
fullwidth `【` (which the cleanup translation maps to `[`). -/
def noBr (s : Str) : Prop := '[' ∉ s ∧ '【' ∉ s

/-! ## Theorems -/

/-- Clamp bounds for one `max 0 (min m (x + d))` update. -/
theorem clamp_bounds (m x d : Int) (hm : 0 ≤ m) :
    0 ≤ max 0 (min m (x + d)) ∧ max 0 (min m (x + d)) ≤ m := by
  constructor
  · exact le_max_left 0 _
  · exact max_le hm (min_le_left _ _)

/-- Membership description of `updateFirstNpc`. -/
theorem updateFirstNpc_mem (l : List CharacterState) (c : CharacterStatusChange)
    (n2 : CharacterState) (h : n2 ∈ updateFirstNpc l c) :
    n2 ∈ l ∨ ∃ x ∈ l, n2 = applyNpcStatus x c := by
  induction l with
  | nil => simp [updateFirstNpc] at h
  | cons x xs ih =>
    by_cases hx : x.id = c.char_ref_id
    · simp [updateFirstNpc, hx] at h
      rcases h with h | h
      · exact Or.inr ⟨x, by simp, h⟩
      · exact Or.inl (by simp [h])
    · simp [updateFirstNpc, hx] at h
      rcases h with h | h
      · exact Or.inl (by simp [h])
      · rcases ih h with h2 | ⟨y, hy, hz⟩
        · exact Or.inl (by simp [h2])
        · exact Or.inr ⟨y, by simp [hy], hz⟩

/-- The stat maxima are untouched by an NPC update. -/
theorem applyNpcStatus_maxes (x : CharacterState) (c : CharacterStatusChange) :
    (applyNpcStatus x c).hp_max = x.hp_max ∧ (applyNpcStatus x c).mp_max = x.mp_max := by
  simp [applyNpcStatus]

/-- Invariant of the NPC status-change loop: every entry of the result
is either an untouched original or clamped; maxima stay nonnegative. -/
theorem applyCharacterChanges_inv (npcs0 : List CharacterState)
    (cs : List CharacterStatusChange) :
    ∀ state : List CharacterState,
      (∀ n ∈ state, (0 ≤ n.hp_max ∧ 0 ≤ n.mp_max) ∧
        (n ∈ npcs0 ∨ (0 ≤ n.hp ∧ n.hp ≤ n.hp_max ∧ 0 ≤ n.mp ∧ n.mp ≤ n.mp_max ∧ 0 ≤ n.gold))) →
      ∀ n2 ∈ cs.foldl updateFirstNpc state,
        (0 ≤ n2.hp_max ∧ 0 ≤ n2.mp_max) ∧
        (n2 ∈ npcs0 ∨ (0 ≤ n2.hp ∧ n2.hp ≤ n2.hp_max ∧ 0 ≤ n2.mp ∧ n2.mp ≤ n2.mp_max ∧ 0 ≤ n2.gold)) := by
  induction cs with
  | nil => intro state hstate n2 h2; exact hstate n2 h2
  | cons c cs ih =>
    intro state hstate n2 h2
    refine ih (updateFirstNpc state c) ?_ n2 h2
    intro n hn
    rcases updateFirstNpc_mem state c n hn with hmem | ⟨x, hx, rfl⟩
    · exact hstate n hmem
    · have hx2 := hstate x hx
      have hmx := applyNpcStatus_maxes x c
      refine ⟨⟨by rw [hmx.1]; exact hx2.1.1, by rw [hmx.2]; exact hx2.1.2⟩, Or.inr ?_⟩
      have h1 := clamp_bounds x.hp_max x.hp c.hp_delta hx2.1.1
      have h2 := clamp_bounds x.mp_max x.mp c.mp_delta hx2.1.2
      simp only [applyNpcStatus]
      exact ⟨h1.1, h1.2, h2.1, h2.2, le_max_left 0 _⟩

/-- C10: after `play_turn` applies a parsed turn's numeric deltas, the
player's `hp` lies in `[0, hp_max]`, `mp` in `[0, mp_max]` and `gold`
is floored at 0, and every NPC in the updated list is either untouched
or likewise clamped to its own (nonnegative) maxima — for every prior
stat vector and every delta, including negative deltas larger than the
current stat and positive deltas exceeding the maximum. -/
theorem c10_status_deltas_clamped (p : CharacterState) (u : UserStatusChange)
    (npcs : List CharacterState) (cs : List CharacterStatusChange)
    (hhp : 0 ≤ p.hp_max) (hmp : 0 ≤ p.mp_max)
    (hn : ∀ n ∈ npcs, 0 ≤ n.hp_max ∧ 0 ≤ n.mp_max) :
    (0 ≤ (applyUserStatus p u).hp ∧ (applyUserStatus p u).hp ≤ p.hp_max ∧
     0 ≤ (applyUserStatus p u).mp ∧ (applyUserStatus p u).mp ≤ p.mp_max ∧
     0 ≤ (applyUserStatus p u).gold) ∧
    ∀ n2 ∈ applyCharacterChanges npcs cs,
      n2 ∈ npcs ∨
      (0 ≤ n2.hp ∧ n2.hp ≤ n2.hp_max ∧ 0 ≤ n2.mp ∧ n2.mp ≤ n2.mp_max ∧ 0 ≤ n2.gold) := by
  constructor
  · have h1 := clamp_bounds p.hp_max p.hp u.hp_delta hhp
    have h2 := clamp_bounds p.mp_max p.mp u.mp_delta hmp
    simp only [applyUserStatus]
    exact ⟨h1.1, h1.2, h2.1, h2.2, le_max_left 0 _⟩
  · intro n2 h2
    have := applyCharacterChanges_inv npcs cs npcs
      (fun n hn2 => ⟨hn n hn2, Or.inl hn2⟩) n2 h2
    exact this.2

/-- Witness for C10 at concrete stats: a 100-point loss on 5 hp clamps
to 0, a 100-point gain on 3/6 mp clamps to 6, a 50-gold loss on 7 gold
clamps to 0, and an NPC hit by a +999 hp delta clamps to its maximum. -/
theorem c10_status_deltas_clamped_witness :
    (0 ≤ (applyUserStatus
        { id := 0, hp := 5, hp_max := 10, mp := 3, mp_max := 6, gold := 7 }
        { hp_delta := -100, mp_delta := 100, gold_delta := -50 }).hp ∧
      (applyUserStatus
        { id := 0, hp := 5, hp_max := 10, mp := 3, mp_max := 6, gold := 7 }
        { hp_delta := -100, mp_delta := 100, gold_delta := -50 }).hp ≤ 10 ∧
      0 ≤ (applyUserStatus
        { id := 0, hp := 5, hp_max := 10, mp := 3, mp_max := 6, gold := 7 }
        { hp_delta := -100, mp_delta := 100, gold_delta := -50 }).mp ∧
      (applyUserStatus
        { id := 0, hp := 5, hp_max := 10, mp := 3, mp_max := 6, gold := 7 }
        { hp_delta := -100, mp_delta := 100, gold_delta := -50 }).mp ≤ 6 ∧
      0 ≤ (applyUserStatus
        { id := 0, hp := 5, hp_max := 10, mp := 3, mp_max := 6, gold := 7 }
        { hp_delta := -100, mp_delta := 100, gold_delta := -50 }).gold) ∧
    ∀ n2 ∈ applyCharacterChanges
        [{ id := 1, hp := 5, hp_max := 10, mp := 0, mp_max := 0, gold := 0 }]
        [{ char_ref_id := 1, hp_delta := 999 }],
      n2 ∈ [({ id := 1, hp := 5, hp_max := 10, mp := 0, mp_max := 0, gold := 0 } : CharacterState)] ∨
      (0 ≤ n2.hp ∧ n2.hp ≤ n2.hp_max ∧ 0 ≤ n2.mp ∧ n2.mp ≤ n2.mp_max ∧ 0 ≤ n2.gold) :=
  c10_status_deltas_clamped
    { id := 0, hp := 5, hp_max := 10, mp := 3, mp_max := 6, gold := 7 }
    { hp_delta := -100, mp_delta := 100, gold_delta := -50 }
    [{ id := 1, hp := 5, hp_max := 10, mp := 0, mp_max := 0, gold := 0 }]
    [{ char_ref_id := 1, hp_delta := 999 }]
    (by decide) (by decide) (by decide)

/-- A zero count for an idempotency key means the duplicate-check
`find_one` misses. -/
theorem countMsgKey_zero_find (db : List ChatMessageDoc) (sid : Nat) (r : Str)
    (h : countMsgKey db sid r = 0) : db.find? (msgKeyMatch sid r) = none := by
  have hfil : db.filter (msgKeyMatch sid r) = [] := List.length_eq_zero.mp h
  rw [List.find?_eq_none]
  intro x hx hpx
  have hmem : x ∈ db.filter (msgKeyMatch sid r) := List.mem_filter.mpr ⟨hx, hpx⟩
  simp [hfil] at hmem

/-- `find?` over a list that misses everywhere, extended by a matching
element, finds that element. -/
theorem find?_append_one {α : Type} (p : α → Bool) (db : List α) (d : α)
    (hall : ∀ x ∈ db, ¬ p x = true) (hd : p d = true) :
    (db ++ [d]).find? p = some d := by
  induction db with
  | nil => simp [hd]
  | cons x xs ih =>
    rw [List.cons_append, List.find?_cons_of_neg _ (hall x (by simp))]
    exact ih (fun y hy => hall y (by simp [hy]))

/-- C9 (amended): message insertion is idempotent on every TRUTHY
idempotency key — a non-empty request id; an empty-string id is falsy
in Python, skips all three `if request_id:` guards and is not
idempotent (see the counterexample).  With a non-empty request id:
(1) starting from a state with no document for the key, a successful
insert stores exactly one document, and an immediately repeated call
(any payload, whether or not its own insert attempt would fail)
performs no insert and returns the stored record; (2) whenever a
document for the key already exists, any call returns that existing
record unchanged without inserting (the pre-insert duplicate check);
and (3) when the pre-check misses and `insert_one` fails, nothing is
stored and the error propagates (the insert-failure recovery path
re-queries and re-raises), so at most one document per key is ever
stored. -/
theorem c9_insert_message_amended (db : List ChatMessageDoc) (sid : Nat)
    (u1 r1 c1 u2 r2 c2 : Str) (rid : Str) (f2 : Bool) (hr : rid ≠ []) :
    (countMsgKey db sid rid = 0 →
      (insert_message db sid u1 r1 c1 (some rid) false).1 =
        db ++ [{ session_id := sid, user_id := u1, role := r1, content := c1,
                 request_id := some rid }] ∧
      countMsgKey (insert_message db sid u1 r1 c1 (some rid) false).1 sid rid = 1 ∧
      insert_message (insert_message db sid u1 r1 c1 (some rid) false).1
          sid u2 r2 c2 (some rid) f2 =
        ((insert_message db sid u1 r1 c1 (some rid) false).1,
         some { session_id := sid, user_id := u1, role := r1, content := c1,
                request_id := some rid })) ∧
    (∀ ex, db.find? (msgKeyMatch sid rid) = some ex →
      ∀ f, insert_message db sid u2 r2 c2 (some rid) f = (db, some ex)) ∧
    (db.find? (msgKeyMatch sid rid) = none →
      insert_message db sid u1 r1 c1 (some rid) true = (db, none)) := by
  have hkey : ridKey (some rid) = some rid := by simp [ridKey, hr]
  refine ⟨?_, ?_, ?_⟩
  · intro h0
    have hnone := countMsgKey_zero_find db sid rid h0
    have hall : ∀ x ∈ db, ¬ msgKeyMatch sid rid x = true := List.find?_eq_none.mp hnone
    have hdoc : msgKeyMatch sid rid
        { session_id := sid, user_id := u1, role := r1, content := c1,
          request_id := some rid } = true := by simp [msgKeyMatch]
    have hstate : (insert_message db sid u1 r1 c1 (some rid) false).1 =
        db ++ [{ session_id := sid, user_id := u1, role := r1, content := c1,
                 request_id := some rid }] := by
      simp [insert_message, hkey, hnone]
    refine ⟨hstate, ?_, ?_⟩
    · rw [hstate]
      simp only [countMsgKey, List.filter_append]
      rw [List.filter_eq_nil_iff.mpr hall]
      simp [hdoc]
    · have key := find?_append_one _ db _ hall hdoc
      simp [insert_message, hkey, hnone, key]
  · intro ex hex f
    simp [insert_message, hkey, hex]
  · intro hnone
    simp [insert_message, hkey, hnone]

/-- Witness for C9 (amended) at a concrete non-empty key: on an empty
collection a first insert stores one document and an immediately
repeated call (with an insert attempt that would fail) returns that
stored record without inserting; a failing insert on the empty
collection stores nothing. -/
theorem c9_insert_message_amended_witness :
    countMsgKey (insert_message [] 1 (("u").toList) (("user").toList)
        (("hi").toList) (some (("req-1").toList)) false).1 1 (("req-1").toList) = 1 ∧
    insert_message (insert_message [] 1 (("u").toList) (("user").toList)
        (("hi").toList) (some (("req-1").toList)) false).1
        1 (("u").toList) (("user").toList) (("hi2").toList)
        (some (("req-1").toList)) true =
      ((insert_message [] 1 (("u").toList) (("user").toList)
          (("hi").toList) (some (("req-1").toList)) false).1,
       some { session_id := 1, user_id := ("u").toList, role := ("user").toList,
              content := ("hi").toList, request_id := some (("req-1").toList) }) ∧
    insert_message [] 1 (("u").toList) (("user").toList) (("hi").toList)
        (some (("req-1").toList)) true = ([], none) := by
  have h := c9_insert_message_amended [] 1 (("u").toList) (("user").toList)
    (("hi").toList) (("u").toList) (("user").toList) (("hi2").toList)
    (("req-1").toList) true (by decide)
  have h1 := h.1 (by decide)
  exact ⟨h1.2.1, h1.2.2, h.2.2 (by decide)⟩

/-- Counterexample for C9 as stated (for EVERY `(session_id,
request_id)` pair): with the empty-string request id — falsy in
Python, so every `if request_id:` guard is skipped and the field is
left out of the stored documents — two calls with the same
`(session_id, request_id)` pair store TWO documents, and the second
call returns its own new record, not the record stored by the first
call. -/
theorem c9_insert_message_counterexample :
    ((insert_message
        (insert_message [] 1 (("u").toList) (("user").toList) (("hi").toList)
          (some []) false).1
        1 (("u").toList) (("user").toList) (("hi2").toList)
        (some []) false).1).length = 2 ∧
    (insert_message
        (insert_message [] 1 (("u").toList) (("user").toList) (("hi").toList)
          (some []) false).1
        1 (("u").toList) (("user").toList) (("hi2").toList)
        (some []) false).2 ≠
      some { session_id := 1, user_id := ("u").toList, role := ("user").toList,
             content := ("hi").toList, request_id := none } ∧
    (insert_message [] 1 (("u").toList) (("user").toList) (("hi").toList)
        (some []) false).1 =
      [{ session_id := 1, user_id := ("u").toList, role := ("user").toList,
         content := ("hi").toList, request_id := none }] := by decide

/-- The middle fragment of the model-not-found message ends in the
literal remediation command prefix. -/
theorem modelNotFoundMsgMid_split :
    modelNotFoundMsgMid =
      ("'이 Ollama에 설치되어 있지 않습니다. Ollama 컨테이너에서 '").toList ++
      ("ollama pull ").toList := by decide

/-- C8: when the LLM invocation fails with a not-found condition
(`"not found"` in the lowercased error text, or `"404"` in it), the
chat endpoint's `except` branch answers with the distinct
operator-actionable message that names the missing model and the
`ollama pull <model>` remediation (returning a `JSONResponse` rather
than re-raising); every other invocation failure gets the generic
classified answer instead. -/
theorem c8_model_not_found_classified (m e : Str) :
    (isModelNotFoundError e = true →
      chatErrorAnswer m e = llmErrorPre ++ modelNotFoundMsg m ∧
      m <:+: chatErrorAnswer m e ∧
      (("ollama pull ").toList ++ m) <:+: chatErrorAnswer m e) ∧
    (isModelNotFoundError e = false →
      chatErrorAnswer m e = llmErrorPre ++ e) := by
  constructor
  · intro h
    refine ⟨by simp [chatErrorAnswer, h], ?_, ?_⟩
    · refine ⟨llmErrorPre ++ modelNotFoundMsgPre,
        modelNotFoundMsgMid ++ m ++ modelNotFoundMsgPost, ?_⟩
      simp [chatErrorAnswer, h, modelNotFoundMsg]
    · refine ⟨llmErrorPre ++ modelNotFoundMsgPre ++ m ++
        ("'이 Ollama에 설치되어 있지 않습니다. Ollama 컨테이너에서 '").toList,
        modelNotFoundMsgPost, ?_⟩
      simp [chatErrorAnswer, h, modelNotFoundMsg, modelNotFoundMsgMid_split]
  · intro h
    simp [chatErrorAnswer, h]

/-- Witness for C8 at a concrete model name and error text: a
`404`-style error produces the pull-remediation answer naming
`trpg-gen`; a plain connection error produces the generic classified
answer. -/
theorem c8_model_not_found_classified_witness :
    chatErrorAnswer (("trpg-gen").toList) (("Model Not Found: trpg-gen").toList) =
      llmErrorPre ++ modelNotFoundMsg (("trpg-gen").toList) ∧
    (("trpg-gen").toList) <:+:
      chatErrorAnswer (("trpg-gen").toList) (("Model Not Found: trpg-gen").toList) ∧
    (("ollama pull ").toList ++ ("trpg-gen").toList) <:+:
      chatErrorAnswer (("trpg-gen").toList) (("Model Not Found: trpg-gen").toList) ∧
    chatErrorAnswer (("trpg-gen").toList) (("connection refused").toList) =
      llmErrorPre ++ ("connection refused").toList := by
  have h1 := (c8_model_not_found_classified (("trpg-gen").toList)
    (("Model Not Found: trpg-gen").toList)).1 (by decide)
  have h2 := (c8_model_not_found_classified (("trpg-gen").toList)
    (("connection refused").toList)).2 (by decide)
  exact ⟨h1.1, h1.2.1, h1.2.2, h2⟩

/-- Taking the last `n` of a list already truncated to its last `n`,
after an append, is the same as taking the last `n` of the full
append: the sliding-window step composes. -/
theorem pyTail_append (n : Nat) (A B : List α) :
    pyTail n (pyTail n A ++ B) = pyTail n (A ++ B) := by
  unfold pyTail
  by_cases hA : A.length ≤ n
  · rw [Nat.sub_eq_zero_of_le hA]
    simp
  · push_neg at hA
    have hT : (A.drop (A.length - n)).length = n := by
      rw [List.length_drop]; omega
    by_cases hB : B.length ≤ n
    · have e1 : (A.drop (A.length - n) ++ B).length - n = B.length := by
        rw [List.length_append, hT]; omega
      have e2 : (A ++ B).length - n = (A.length - n) + B.length := by
        rw [List.length_append]; omega
      rw [e1, e2]
      rw [List.drop_append_of_le_length (by omega), List.drop_append_of_le_length (by omega)]
      rw [List.drop_drop]
    · push_neg at hB
      have e1 : (A.drop (A.length - n) ++ B).length - n = n + (B.length - n) := by
        rw [List.length_append, hT]; omega
      have e2 : (A ++ B).length - n = A.length + (B.length - n) := by
        rw [List.length_append]; omega
      rw [e1, e2]
      have e3 : List.drop (n + (B.length - n)) (List.drop (A.length - n) A ++ B) =
          List.drop (B.length - n) B := by
        nth_rewrite 1 [← hT]
        exact List.drop_append _
      have e4 : List.drop (A.length + (B.length - n)) (A ++ B) =
          List.drop (B.length - n) B := List.drop_append _
      rw [e3, e4]

/-- The chat history fold starting from a truncated state computes the
window of the whole appended stream. -/
theorem chatHistory_fold_eq (ps : List (ChatMsg × ChatMsg)) :
    ∀ h : List ChatMsg,
      ps.foldl (fun h p => appendChatTurn h p.1 p.2) (pyTail (MAX_TURNS * 2) h) =
      pyTail (MAX_TURNS * 2) (h ++ flatTurns ps) := by
  induction ps with
  | nil => intro h; simp [flatTurns]
  | cons p ps ih =>
    intro h
    have step : appendChatTurn (pyTail (MAX_TURNS * 2) h) p.1 p.2 =
        pyTail (MAX_TURNS * 2) (h ++ [p.1, p.2]) := by
      unfold appendChatTurn
      exact pyTail_append _ h [p.1, p.2]
    simp only [List.foldl_cons, step]
    rw [ih (h ++ [p.1, p.2])]
    simp [flatTurns]

/-- C3 (amended): in both chat endpoints the stored per-(mode,character)
history list is truncated with `sess[key][-MAX_TURNS*2:]` where
`MAX_TURNS = 12`, for every mode: after any sequence of append calls
the stored list is exactly the last `2 × 12 = 24` entries of the full
appended stream — never more than 24 entries, the most recently
appended ones, in original insertion order.  The per-mode constant
(`MAX_TURNS_TRPG = 6`) bounds only the history slice passed to the
prompt builder (`history[-keep:]` with `keep = 12` in TRPG mode), not
the stored list. -/
theorem c3_session_window_amended (ps : List (ChatMsg × ChatMsg)) :
    chatHistory ps = pyTail (MAX_TURNS * 2) (flatTurns ps) ∧
    (chatHistory ps).length ≤ MAX_TURNS * 2 ∧
    flatTurns ps =
      (flatTurns ps).take ((flatTurns ps).length - MAX_TURNS * 2) ++ chatHistory ps ∧
    ∀ h : List ChatMsg, (pyTail (promptKeepWindow true) h).length ≤ MAX_TURNS_TRPG * 2 := by
  have he : chatHistory ps = pyTail (MAX_TURNS * 2) (flatTurns ps) := by
    have := chatHistory_fold_eq ps []
    simpa [chatHistory, pyTail] using this
  refine ⟨he, ?_, ?_, ?_⟩
  · rw [he]
    unfold pyTail
    rw [List.length_drop]
    omega
  · rw [he]
    unfold pyTail
    exact (List.take_append_drop _ _).symm
  · intro h
    unfold pyTail promptKeepWindow
    rw [List.length_drop]
    simp [MAX_TURNS_TRPG]
    omega

/-- Counterexample for C3 as stated: seven TRPG turns leave fourteen
stored entries, exceeding the claimed TRPG bound of
`2 × MAX_TURNS_TRPG = 12` (the code truncates with the global
`MAX_TURNS = 12`, i.e. to 24 entries, in every mode). -/
theorem c3_session_window_counterexample :
    (chatHistory (List.replicate 7
      ({ role := ("user").toList, content := ("u").toList },
       { role := ("assistant").toList, content := ("a").toList }))).length = 14 ∧
    MAX_TURNS_TRPG * 2 < 14 := by decide

/-- C2: the structured-turn parse (direct validation, then
extract-and-validate, then fallback) is a total function — every raw
string yields a schema-valid `GameTurnLLMResponse`, exceptions inside
`extract_json` included — and whenever both validation attempts fail
the result is the fallback: an empty dialogue sequence, all-zero user
status deltas, an empty character-delta sequence, and a narration equal
to the stripped raw text (truncated to its first 400 characters with an
ellipsis appended when longer), or the fixed placeholder when the raw
text is empty or whitespace. -/
theorem c2_structured_fallback (validate : Str → Option GameTurnLLMResponse)
    (raw_text : Str)
    (h1 : validate raw_text = none)
    (h2 : ∀ c, extract_json raw_text = some c → validate c = none) :
    (parse_structured validate raw_text).dialogues = [] ∧
    (parse_structured validate raw_text).status_changes.user.hp_delta = 0 ∧
    (parse_structured validate raw_text).status_changes.user.mp_delta = 0 ∧
    (parse_structured validate raw_text).status_changes.user.gold_delta = 0 ∧
    (parse_structured validate raw_text).status_changes.user.items_add = [] ∧
    (parse_structured validate raw_text).status_changes.user.items_remove = [] ∧
    (parse_structured validate raw_text).status_changes.characters = [] ∧
    (pyStrip raw_text = [] →
      (parse_structured validate raw_text).narration = fallbackPlaceholder) ∧
    (pyStrip raw_text ≠ [] → (pyStrip raw_text).length ≤ 400 →
      (parse_structured validate raw_text).narration = pyStrip raw_text) ∧
    (400 < (pyStrip raw_text).length →
      (parse_structured validate raw_text).narration =
        (pyStrip raw_text).take 400 ++ ("...").toList) := by
  have hfb : parse_structured validate raw_text =
      build_fallback_llm_response raw_text := by
    unfold parse_structured
    rw [h1]
    cases hx : extract_json raw_text with
    | none => simp
    | some c => simp [h2 c hx]
  rw [hfb]
  unfold build_fallback_llm_response
  refine ⟨by simp, by simp, by simp, by simp, by simp, by simp, by simp, ?_, ?_, ?_⟩
  · intro hempty
    simp [hempty]
  · intro hne hle
    have hnl : ¬ 400 < (pyStrip raw_text).length := by omega
    simp [hnl, hne]
  · intro hlong
    have hne2 : (pyStrip raw_text).take 400 ++ ("...").toList ≠ [] := by
      intro hcontra
      have hlen := congrArg List.length hcontra
      simp [List.length_take] at hlen
    simp [hlong, hne2]

/-- Witness for C2 at a concrete non-JSON input with the
always-failing validation oracle: the fallback carries the raw prose as
narration with empty dialogues and zero deltas, and a whitespace-only
input gets the placeholder narration. -/
theorem c2_structured_fallback_witness :
    (parse_structured validateNone (("not json at all, just prose").toList)).narration =
      ("not json at all, just prose").toList ∧
    (parse_structured validateNone (("not json at all, just prose").toList)).dialogues = [] ∧
    (parse_structured validateNone (("not json at all, just prose").toList)).status_changes.user.hp_delta = 0 ∧
    (parse_structured validateNone (("not json at all, just prose").toList)).status_changes.characters = [] ∧
    (parse_structured validateNone (("   ").toList)).narration = fallbackPlaceholder := by
  have h := c2_structured_fallback validateNone (("not json at all, just prose").toList)
    rfl (fun c _ => rfl)
  have hw := c2_structured_fallback validateNone (("   ").toList)
    rfl (fun c _ => rfl)
  refine ⟨?_, h.1, h.2.1, h.2.2.2.2.2.2.1, ?_⟩
  · have hn := h.2.2.2.2.2.2.2.2.1 (by decide) (by decide)
    rw [hn]; decide
  · exact hw.2.2.2.2.2.2.2.1 (by decide)

/-- C6 (amended): the enrichment step keeps the padded segment list
within the configured bounds — for every raw input and generator state
the segment list of the scene (`sents[:max_sent]` after the padding
loop, with defaults min 4 / max 6) has between 4 and 6 entries, padded
from the sensory filler pool when fewer than 4 cleaned sentences
remain and truncated to 6, never below the minimum.  The claim as
stated — that the re-split sentence count of the final scene TEXT is
within [4, 6] — fails, because a cleaned sentence fragment without
terminal punctuation merges with the first filler sentence when the
padded segments are joined (see the counterexample). -/
theorem c6_sentence_bounds_amended (raw : Str) (g : Nat → Nat) :
    4 ≤ (enrichSegs g (ppHeadCleaned raw) 4 6).length ∧
    (enrichSegs g (ppHeadCleaned raw) 4 6).length ≤ 6 := by
  unfold enrichSegs padSents
  rw [List.length_take, List.length_append, List.length_map, List.length_range]
  omega

/-- Counterexample for C6 as stated: on raw input `"가"` (one cleaned
sentence with no terminal punctuation) the formatter's n = 0 output
re-splits into only 3 sentences, below the minimum of 4 — the
unpunctuated fragment fuses with the first padding sentence. -/
theorem c6_sentence_bounds_counterexample :
    (sentsOf (postprocess_trpg (("가").toList) 0 gZero sampleTake3)).length = 3 ∧
    3 < 4 := by decide

/-- When at least `min_sent` cleaned sentences are present the padding
loop draws nothing from the global generator. -/
theorem enrich_no_draw (g g' : Nat → Nat) (head : Str)
    (h : 4 ≤ (sentsOf head).length) :
    enrich_scene_generic g head 4 6 = enrich_scene_generic g' head 4 6 := by
  unfold enrich_scene_generic enrichSegs padSents
  have : min 4 6 - (sentsOf head).length = 0 := by omega
  rw [this]
  simp

/-- C4 (amended): formatting is deterministic in the global generator
state exactly when no sentence padding occurs: if the cleaned scene
already has at least 4 sentences, two runs of `postprocess_trpg` on the
same raw text and choice count agree for any two global-generator
states (the synthesis sampler is a pure function of the scene text).
The claim as stated — including the case where sentence padding occurs
— fails: padding draws from the unseeded global generator before the
seed text is hashed, so two runs can differ (see the counterexample). -/
theorem c4_determinism_amended (raw : Str) (d : Int)
    (S : Str → List Str → List Str) (g g' : Nat → Nat)
    (h : 4 ≤ (sentsOf (ppHeadCleaned raw)).length) :
    postprocess_trpg raw d g S = postprocess_trpg raw d g' S ∧
    postChoices raw d g S = postChoices raw d g' S := by
  have hpf : ppHeadFinal raw g = ppHeadFinal raw g' := by
    unfold ppHeadFinal
    exact enrich_no_draw g g' (ppHeadCleaned raw) h
  constructor
  · unfold postprocess_trpg postChoices
    rw [hpf]
  · unfold postChoices
    rw [hpf]

/-- Witness for C4 (amended) at a concrete four-sentence scene: the
outputs under two different generator states agree. -/
theorem c4_determinism_amended_witness :
    postprocess_trpg (("가나다. 가나다! 가나다? 가나다.").toList) 3 gZero sampleSkip3 =
      postprocess_trpg (("가나다. 가나다! 가나다? 가나다.").toList) 3 gOne sampleSkip3 ∧
    postChoices (("가나다. 가나다! 가나다? 가나다.").toList) 3 gZero sampleSkip3 =
      postChoices (("가나다. 가나다! 가나다? 가나다.").toList) 3 gOne sampleSkip3 :=
  c4_determinism_amended (("가나다. 가나다! 가나다? 가나다.").toList) 3 sampleSkip3
    gZero gOne (by decide)

/-- Counterexample for C4 as stated: on raw input `"가"` (padding
occurs) two global-generator states yield different synthesized
choices — and different scene texts — for the same raw text and
desired count. -/
theorem c4_determinism_counterexample :
    postChoices (("가").toList) 3 gZero sampleSkip3 ≠
      postChoices (("가").toList) 3 gOne sampleSkip3 ∧
    postprocess_trpg (("가").toList) 3 gZero sampleSkip3 ≠
      postprocess_trpg (("가").toList) 3 gOne sampleSkip3 := by decide

/-- Step equation: a non-terminator character joins the current line. -/
theorem pySplitlinesGo_nonterm (sk : Bool) (cur : Str) (c : Char) (cs : Str)
    (hc : isLineTerm c = false) :
    pySplitlinesGo sk cur (c :: cs) = pySplitlinesGo false (c :: cur) cs := by
  have hn : c ≠ '\n' := by intro h; rw [h] at hc; simp [isLineTerm] at hc
  have hr : c ≠ '\r' := by intro h; rw [h] at hc; simp [isLineTerm] at hc
  simp [pySplitlinesGo, hn, hr, hc]

/-- Step equation: a terminator other than `\r` closes the current
line (from the non-skipping state). -/
theorem pySplitlinesGo_term (cur : Str) (c : Char) (cs : Str)
    (hc : isLineTerm c = true) (hr : c ≠ '\r') :
    pySplitlinesGo false cur (c :: cs) = cur.reverse :: pySplitlinesGo false [] cs := by
  simp [pySplitlinesGo, hr, hc]

/-- A terminator-free string is one single line. -/
theorem pySplitlinesGo_noterm_single (x : Str) :
    ∀ cur : Str, (∀ c ∈ x, isLineTerm c = false) →
      pySplitlinesGo false cur x =
        if cur.reverse ++ x = [] then [] else [cur.reverse ++ x] := by
  induction x with
  | nil => intro cur _; simp [pySplitlinesGo]
  | cons c cs ih =>
    intro cur hx
    rw [pySplitlinesGo_nonterm false cur c cs (hx c (by simp))]
    rw [ih (c :: cur) (fun d hd => hx d (by simp [hd]))]
    simp

/-- A terminator-free prefix followed by a newline yields that prefix
as one line, then the split of the rest. -/
theorem pySplitlinesGo_break (x : Str) :
    ∀ cur rest : Str, (∀ c ∈ x, isLineTerm c = false) →
      pySplitlinesGo false cur (x ++ '\n' :: rest) =
        (cur.reverse ++ x) :: pySplitlinesGo false [] rest := by
  induction x with
  | nil =>
    intro cur rest _
    rw [List.nil_append, pySplitlinesGo_term cur '\n' rest (by simp [isLineTerm]) (by decide)]
    simp
  | cons c cs ih =>
    intro cur rest hx
    rw [List.cons_append, pySplitlinesGo_nonterm false cur c (cs ++ '\n' :: rest) (hx c (by simp))]
    rw [ih (c :: cur) rest (fun d hd => hx d (by simp [hd]))]
    simp

/-- Every character of every line of a split comes from the
accumulator or the input. -/
theorem pySplitlinesGo_pieces_sub (s : Str) :
    ∀ (sk : Bool) (cur : Str), ∀ ln ∈ pySplitlinesGo sk cur s, ∀ c ∈ ln, c ∈ cur ∨ c ∈ s := by
  induction s with
  | nil =>
    intro sk cur ln hln c hc
    by_cases hcur : cur = []
    · simp [pySplitlinesGo, hcur] at hln
    · simp [pySplitlinesGo, hcur] at hln
      subst hln
      exact Or.inl (by simpa using hc)
  | cons a rest ih =>
    intro sk cur ln hln c hc
    by_cases h1 : sk && a = '\n'
    · rw [show pySplitlinesGo sk cur (a :: rest) = pySplitlinesGo false cur rest from by
        simp [pySplitlinesGo, h1]] at hln
      rcases ih false cur ln hln c hc with h | h
      · exact Or.inl h
      · exact Or.inr (by simp [h])
    · by_cases h2 : a = '\r'
      · rw [show pySplitlinesGo sk cur (a :: rest) = cur.reverse :: pySplitlinesGo true [] rest from by
          simp [pySplitlinesGo, h1, h2]] at hln
        rcases List.mem_cons.mp hln with h | h
        · subst h; exact Or.inl (by simpa using hc)
        · rcases ih true [] ln h c hc with h3 | h3
          · simp at h3
          · exact Or.inr (by simp [h3])
      · by_cases h3 : isLineTerm a
        · rw [show pySplitlinesGo sk cur (a :: rest) = cur.reverse :: pySplitlinesGo false [] rest from by
            simp [pySplitlinesGo, h1, h2, h3]] at hln
          rcases List.mem_cons.mp hln with h | h
          · subst h; exact Or.inl (by simpa using hc)
          · rcases ih false [] ln h c hc with h4 | h4
            · simp at h4
            · exact Or.inr (by simp [h4])
        · rw [show pySplitlinesGo sk cur (a :: rest) = pySplitlinesGo false (a :: cur) rest from by
            simp [pySplitlinesGo, h1, h2, h3]] at hln
          rcases ih false (a :: cur) ln hln c hc with h | h
          · rcases List.mem_cons.mp h with h5 | h5
            · exact Or.inr (by simp [h5])
            · exact Or.inl h5
          · exact Or.inr (by simp [h])

/-- Every line of a split is terminator-free. -/
theorem pySplitlinesGo_pieces_noterm (s : Str) :
    ∀ (sk : Bool) (cur : Str), (∀ c ∈ cur, isLineTerm c = false) →
      ∀ ln ∈ pySplitlinesGo sk cur s, ∀ c ∈ ln, isLineTerm c = false := by
  induction s with
  | nil =>
    intro sk cur hcur ln hln c hc
    by_cases h : cur = []
    · simp [pySplitlinesGo, h] at hln
    · simp [pySplitlinesGo, h] at hln
      subst hln
      exact hcur c (by simpa using hc)
  | cons a rest ih =>
    intro sk cur hcur ln hln c hc
    by_cases h1 : sk && a = '\n'
    · rw [show pySplitlinesGo sk cur (a :: rest) = pySplitlinesGo false cur rest from by
        simp [pySplitlinesGo, h1]] at hln
      exact ih false cur hcur ln hln c hc
    · by_cases h2 : a = '\r'
      · rw [show pySplitlinesGo sk cur (a :: rest) = cur.reverse :: pySplitlinesGo true [] rest from by
          simp [pySplitlinesGo, h1, h2]] at hln
        rcases List.mem_cons.mp hln with h | h
        · subst h; exact hcur c (by simpa using hc)
        · exact ih true [] (by simp) ln h c hc
      · by_cases h3 : isLineTerm a
        · rw [show pySplitlinesGo sk cur (a :: rest) = cur.reverse :: pySplitlinesGo false [] rest from by
            simp [pySplitlinesGo, h1, h2, h3]] at hln
          rcases List.mem_cons.mp hln with h | h
          · subst h; exact hcur c (by simpa using hc)
          · exact ih false [] (by simp) ln h c hc
        · rw [show pySplitlinesGo sk cur (a :: rest) = pySplitlinesGo false (a :: cur) rest from by
            simp [pySplitlinesGo, h1, h2, h3]] at hln
          refine ih false (a :: cur) ?_ ln hln c hc
          intro d hd
          rcases List.mem_cons.mp hd with h5 | h5
          · subst h5; simpa using h3
          · exact hcur d h5

/-- Joining non-blank, terminator-free lines with newlines and
re-splitting returns the same lines. -/
theorem pySplitlines_joinSep (lines : List Str)
    (h : ∀ ln ∈ lines, ln ≠ [] ∧ ∀ c ∈ ln, isLineTerm c = false) :
    pySplitlines (joinSep ['\n'] lines) = lines := by
  induction lines with
  | nil => simp [joinSep, pySplitlines, pySplitlinesGo]
  | cons x xs ih =>
    cases xs with
    | nil =>
      have hx := h x (by simp)
      unfold pySplitlines
      rw [show joinSep ['\n'] [x] = x from rfl]
      rw [pySplitlinesGo_noterm_single x [] hx.2]
      simp [hx.1]
    | cons y ys =>
      have hx := h x (by simp)
      unfold pySplitlines
      rw [show joinSep ['\n'] (x :: y :: ys) = x ++ '\n' :: joinSep ['\n'] (y :: ys) from by
        simp [joinSep]]
      rw [pySplitlinesGo_break x [] (joinSep ['\n'] (y :: ys)) hx.2]
      have := ih (fun ln hln => h ln (by simp [hln]))
      unfold pySplitlines at this
      rw [this]
      simp

/-- Unfolding of the keep condition of the routes language filter. -/
theorem keepKoLine_iff (ln : Str) :
    keepKoLine ln = true ↔
      pyStrip ln ≠ [] ∧ 0 < ln.length ∧ ln.length ≤ 5 * countHangul ln ∧
      countHanja ln ≤ 2 ∧ countLatin ln ≤ 5 := by
  simp [keepKoLine, List.isEmpty_iff, and_assoc]

/-- C5 (amended): the line-level language filter itself enforces the
thresholds — every line of the filter's output is one of the input's
lines and satisfies `5·hangul ≥ length`, `hanja ≤ 2`, `latin ≤ 5` (so
every non-empty line with zero Hangul characters, in particular one
with an off-script character, is absent from the filter's output
lines).  The end-to-end form of the claim — that such a line cannot
appear verbatim in the final scene text — fails: de-bulleting and
sentence truncation of other, kept lines can reproduce a dropped line
character-for-character (see the counterexample). -/
theorem c5_language_filter_amended (s L : Str) :
    (L ∈ pySplitlines (drop_non_korean_lines s) →
      L ∈ pySplitlines s ∧ 0 < L.length ∧ L.length ≤ 5 * countHangul L ∧
      countHanja L ≤ 2 ∧ countLatin L ≤ 5) ∧
    (L ∈ pySplitlines s → countHangul L = 0 → 0 < L.length →
      L ∉ pySplitlines (drop_non_korean_lines s)) := by
  have hsplit : pySplitlines (drop_non_korean_lines s) =
      (pySplitlines s).filter keepKoLine := by
    unfold drop_non_korean_lines
    refine pySplitlines_joinSep _ ?_
    intro ln hln
    have hmem := List.mem_filter.mp hln
    have hkeep := (keepKoLine_iff ln).mp hmem.2
    refine ⟨?_, ?_⟩
    · intro hnil
      rw [hnil] at hkeep
      exact hkeep.1 rfl
    · exact pySplitlinesGo_pieces_noterm s false [] (by simp) ln hmem.1
  constructor
  · intro hL
    rw [hsplit] at hL
    have hmem := List.mem_filter.mp hL
    exact ⟨hmem.1, ((keepKoLine_iff L).mp hmem.2).2⟩
  · intro hL hzero hpos hcontra
    rw [hsplit] at hcontra
    have hmem := List.mem_filter.mp hcontra
    have := ((keepKoLine_iff L).mp hmem.2).2.2.1
    omega

/-- Witness for C5 (amended) at a concrete input: the zero-Hangul line
`"abc"` is dropped by the filter while the Hangul line survives with
its thresholds. -/
theorem c5_language_filter_amended_witness :
    (("abc").toList) ∉
      pySplitlines (drop_non_korean_lines (("abc\n가나다").toList)) ∧
    (("가나다").toList) ∈ pySplitlines (("abc\n가나다").toList) ∧
    0 < (("가나다").toList).length ∧
    (("가나다").toList).length ≤ 5 * countHangul (("가나다").toList) := by
  refine ⟨?_, ?_, ?_, ?_⟩
  · exact (c5_language_filter_amended (("abc\n가나다").toList) (("abc").toList)).2
      (by decide) (by decide) (by decide)
  · have := (c5_language_filter_amended (("abc\n가나다").toList) (("가나다").toList)).1
      (by decide)
    exact this.1
  · decide
  · decide

/-- Counterexample for C5 as stated: the raw input's first line
`"2. a. 4. 5. 6. 7."` has zero Hangul characters and one Latin letter,
so the filter drops it — yet the formatter's scene output reproduces it
verbatim (the second, kept line is de-bulleted, its numbered fragments
become "sentences", and truncation to six segments recreates exactly
the dropped line). -/
theorem c5_language_filter_counterexample :
    postprocess_trpg
        (("2. a. 4. 5. 6. 7.\n1. 2. a. 4. 5. 6. 7. 가가가가가가").toList)
        0 gZero sampleTake3 = ("2. a. 4. 5. 6. 7.").toList ∧
    ("2. a. 4. 5. 6. 7.").toList ∈
      pySplitlines (("2. a. 4. 5. 6. 7.\n1. 2. a. 4. 5. 6. 7. 가가가가가가").toList) ∧
    countHangul (("2. a. 4. 5. 6. 7.").toList) = 0 ∧
    0 < countLatin (("2. a. 4. 5. 6. 7.").toList) ∧
    0 < (("2. a. 4. 5. 6. 7.").toList).length := by decide

/-- Left strip keeps a subset of the characters. -/
theorem pyLstrip_subset (s : Str) : pyLstrip s ⊆ s :=
  List.dropWhile_subset _

/-- Right strip keeps a subset of the characters. -/
theorem pyRstrip_subset (s : Str) : pyRstrip s ⊆ s := by
  intro c hc
  unfold pyRstrip at hc
  rw [List.mem_reverse] at hc
  exact (List.mem_reverse).mp (List.dropWhile_subset _ hc)

/-- Strip keeps a subset of the characters. -/
theorem pyStrip_subset (s : Str) : pyStrip s ⊆ s :=
  fun _ hc => pyRstrip_subset s (pyLstrip_subset _ hc)

/-- Characters of a separator-join come from the separator or a part. -/
theorem joinSep_mem (sep : Str) : ∀ (ls : List Str) (c : Char), c ∈ joinSep sep ls →
    c ∈ sep ∨ ∃ l ∈ ls, c ∈ l := by
  intro ls
  induction ls with
  | nil => intro c hc; simp [joinSep] at hc
  | cons x xs ih =>
    intro c hc
    cases xs with
    | nil =>
      rw [show joinSep sep [x] = x from rfl] at hc
      exact Or.inr ⟨x, by simp, hc⟩
    | cons y ys =>
      rw [show joinSep sep (x :: y :: ys) = x ++ sep ++ joinSep sep (y :: ys) from rfl] at hc
      rcases List.mem_append.mp hc with h | h
      · rcases List.mem_append.mp h with h2 | h2
        · exact Or.inr ⟨x, by simp, h2⟩
        · exact Or.inl h2
      · rcases ih c h with h2 | ⟨l, hl, hcl⟩
        · exact Or.inl h2
        · exact Or.inr ⟨l, by simp [hl], hcl⟩

/-- Unfolding equation for the tag-line scanner on a cons cell. -/
theorem removeTagGo_succ_cons (f : Nat) (st : Bool) (c : Char) (cs : Str) :
    removeTagGo (f + 1) st (c :: cs) =
      if st then
        match matchTag (c :: cs) with
        | some L =>
          removeTagGo f
            (match ((c :: cs).take L).getLast? with
             | some '\n' => true
             | _ => false) ((c :: cs).drop L)
        | none => c :: removeTagGo f (c = '\n') cs
      else c :: removeTagGo f (c = '\n') cs := rfl

/-- The bracket-only-line removal only deletes characters. -/
theorem removeTagGo_subset (f : Nat) : ∀ (st : Bool) (s : Str), removeTagGo f st s ⊆ s := by
  induction f with
  | zero => intro st s x hx; exact hx
  | succ f ih =>
    intro st s
    cases s with
    | nil => intro x hx; exact hx
    | cons c cs =>
      intro x hx
      rw [removeTagGo_succ_cons] at hx
      split at hx
      · split at hx
        · exact List.drop_subset _ _ (ih _ _ hx)
        · rcases List.mem_cons.mp hx with h | h
          · simp [h]
          · exact List.mem_cons_of_mem c (ih _ cs h)
      · rcases List.mem_cons.mp hx with h | h
        · simp [h]
        · exact List.mem_cons_of_mem c (ih _ cs h)

/-- Characters of the normalised whole text come from the raw text or
are the rejoining newline. -/
theorem ppWhole_mem (t : Str) (c : Char) (hc : c ∈ ppWhole t) : c ∈ t ∨ c = '\n' := by
  unfold ppWhole at hc
  rcases joinSep_mem ['\n'] _ c hc with h | ⟨l, hl, hcl⟩
  · exact Or.inr (by simpa using h)
  · rcases List.mem_map.mp hl with ⟨l0, hl0, rfl⟩
    have h1 : c ∈ l0 := pyRstrip_subset l0 hcl
    have h2 := pySplitlinesGo_pieces_sub _ false [] l0 hl0 c h1
    rcases h2 with h | h
    · simp at h
    · exact Or.inl (removeTagGo_subset _ _ _ (pyStrip_subset _ h))


/-- Characters of a literal substitution come from the input or the
replacement. -/
theorem subLitGo_mem (pat rep : Str) : ∀ (f : Nat) (s : Str) (c : Char),
    c ∈ subLitGo pat rep f s → c ∈ s ∨ c ∈ rep := by
  intro f
  induction f with
  | zero => intro s c hc; exact Or.inl (by simpa [subLitGo] using hc)
  | succ f ih =>
    intro s c hc
    cases s with
    | nil => simp [subLitGo] at hc
    | cons a cs =>
      simp only [subLitGo] at hc
      split at hc
      · rcases List.mem_append.mp hc with h | h
        · exact Or.inr h
        · rcases ih _ c h with h2 | h2
          · exact Or.inl (List.drop_subset _ _ h2)
          · exact Or.inr h2
      · rcases List.mem_cons.mp hc with h | h
        · exact Or.inl (by simp [h])
        · rcases ih cs c h with h2 | h2
          · exact Or.inl (by simp [h2])
          · exact Or.inr h2

/-- Characters of a boundary-guarded substitution come from the input
or the replacement. -/
theorem subBoundaryGo_mem (pat rep : Str) : ∀ (f : Nat) (s : Str) (c : Char),
    c ∈ subBoundaryGo pat rep f s → c ∈ s ∨ c ∈ rep := by
  intro f
  induction f with
  | zero => intro s c hc; exact Or.inl (by simpa [subBoundaryGo] using hc)
  | succ f ih =>
    intro s c hc
    cases s with
    | nil => simp [subBoundaryGo] at hc
    | cons a cs =>
      simp only [subBoundaryGo] at hc
      split at hc
      · rcases List.mem_append.mp hc with h | h
        · exact Or.inr h
        · rcases ih _ c h with h2 | h2
          · exact Or.inl (List.drop_subset _ _ h2)
          · exact Or.inr h2
      · rcases List.mem_cons.mp hc with h | h
        · exact Or.inl (by simp [h])
        · rcases ih cs c h with h2 | h2
          · exact Or.inl (by simp [h2])
          · exact Or.inr h2

/-- Characters of the long-run sentence-break pass come from the input
or are the inserted `. `. -/
theorem refineLongGo_mem : ∀ (f : Nat) (s : Str) (c : Char),
    c ∈ refineLongGo f s → c ∈ s ∨ c = '.' ∨ c = ' ' := by
  intro f
  induction f with
  | zero => intro s c hc; exact Or.inl (by simpa [refineLongGo] using hc)
  | succ f ih =>
    intro s c hc
    cases s with
    | nil => simp [refineLongGo] at hc
    | cons a cs =>
      simp only [refineLongGo] at hc
      split at hc
      · rcases List.mem_append.mp hc with h | h
        · exact Or.inl (List.take_subset _ _ h)
        · rcases List.mem_cons.mp h with h2 | h2
          · exact Or.inr (Or.inl h2)
          · rcases List.mem_cons.mp h2 with h3 | h3
            · exact Or.inr (Or.inr h3)
            · rcases ih _ c h3 with h4 | h4
              · exact Or.inl (List.drop_subset _ _ h4)
              · exact Or.inr h4
      · rcases List.mem_cons.mp hc with h | h
        · exact Or.inl (by simp [h])
        · rcases ih cs c h with h2 | h2
          · exact Or.inl (by simp [h2])
          · exact Or.inr h2

/-- Characters of `refine_ko` output come from the input or from the
fixed replacement texts. -/
theorem refine_ko_mem (s : Str) (c : Char) (hc : c ∈ refine_ko s) :
    c ∈ s ∨ c ∈ ("하고 있다").toList ∨ c ∈ ("해요.").toList ∨
    c ∈ ("해요").toList ∨ c = '.' ∨ c = ' ' := by
  unfold refine_ko at hc
  rcases refineLongGo_mem _ _ c hc with h1 | h1
  · rcases subBoundaryGo_mem _ _ _ _ c h1 with h2 | h2
    · rcases subLitGo_mem _ _ _ _ c h2 with h3 | h3
      · rcases subLitGo_mem _ _ _ _ c h3 with h4 | h4
        · exact Or.inl h4
        · exact Or.inr (Or.inl h4)
      · exact Or.inr (Or.inr (Or.inl h3))
    · exact Or.inr (Or.inr (Or.inr (Or.inl h2)))
  · exact Or.inr (Or.inr (Or.inr (Or.inr h1)))

/-- Characters of the language filter's output come from the input or
are the rejoining newline. -/
theorem drop_non_korean_lines_mem (s : Str) (c : Char)
    (hc : c ∈ drop_non_korean_lines s) : c ∈ s ∨ c = '\n' := by
  unfold drop_non_korean_lines at hc
  rcases joinSep_mem ['\n'] _ c hc with h | ⟨l, hl, hcl⟩
  · exact Or.inr (by simpa using h)
  · have hl2 : l ∈ pySplitlines s := (List.mem_filter.mp hl).1
    rcases pySplitlinesGo_pieces_sub s false [] l hl2 c hcl with h | h
    · simp at h
    · exact Or.inl h

/-- Characters of a de-bulleted line come from the line. -/
theorem deBulletLine_subset (ln : Str) : deBulletLine ln ⊆ ln := by
  unfold deBulletLine
  cases markerLenWide ln with
  | some L => exact fun c hc => List.drop_subset _ _ (List.dropWhile_subset _ hc)
  | none => exact fun c hc => hc

/-- Characters of the de-bulleting conversion come from the input or
are the inserted period / joining space. -/
theorem bullets_to_scene_mem (s : Str) (c : Char) (hc : c ∈ bullets_to_scene s) :
    c ∈ s ∨ c = '.' ∨ c = ' ' := by
  unfold bullets_to_scene at hc
  have hc2 := pyStrip_subset _ hc
  rcases joinSep_mem [' '] _ c hc2 with h | ⟨l, hl, hcl⟩
  · exact Or.inr (Or.inr (by simpa using h))
  · have hl2 := List.take_subset _ _ hl
    rcases List.mem_map.mp hl2 with ⟨ln, hln, rfl⟩
    have hln2 := List.mem_filter.mp hln
    rcases List.mem_map.mp hln2.1 with ⟨ln0, hln0, rfl⟩
    by_cases he : endsWithTerm (deBulletLine (pyStrip ln0))
    · rw [if_pos he] at hcl
      have h3 := pyStrip_subset _ (deBulletLine_subset _ hcl)
      rcases pySplitlinesGo_pieces_sub s false [] ln0 hln0 c h3 with h | h
      · simp at h
      · exact Or.inl h
    · rw [if_neg he] at hcl
      rcases List.mem_append.mp hcl with h | h
      · have h3 := pyStrip_subset _ (deBulletLine_subset _ h)
        rcases pySplitlinesGo_pieces_sub s false [] ln0 hln0 c h3 with h4 | h4
        · simp at h4
        · exact Or.inl h4
      · exact Or.inr (Or.inl (by simpa using h))

/-- Characters of sentence-split pieces come from the accumulator or
the input. -/
theorem splitSentsGo_mem (s : Str) : ∀ (cur : Str), ∀ ln ∈ splitSentsGo cur s, ∀ c ∈ ln,
    c ∈ cur ∨ c ∈ s := by
  induction s with
  | nil =>
    intro cur ln hln c hc
    simp [splitSentsGo] at hln
    subst hln
    exact Or.inl (by simpa using hc)
  | cons a rest ih =>
    intro cur ln hln c hc
    simp only [splitSentsGo] at hln
    split at hln
    · rcases List.mem_cons.mp hln with h | h
      · subst h; exact Or.inl (by simpa using hc)
      · rcases ih [] ln h c hc with h2 | h2
        · simp at h2
        · exact Or.inr (by simp [h2])
    · rcases ih (a :: cur) ln hln c hc with h2 | h2
      · rcases List.mem_cons.mp h2 with h3 | h3
        · exact Or.inr (by simp [h3])
        · exact Or.inl h3
      · exact Or.inr (by simp [h2])

/-- Characters of the cleaned sentence pieces come from the input. -/
theorem sentsOf_mem (head : Str) (ln : Str) (hln : ln ∈ sentsOf head) :
    ∀ c ∈ ln, c ∈ head := by
  intro c hc
  unfold sentsOf at hln
  have h1 := (List.mem_filter.mp hln).1
  rcases List.mem_map.mp h1 with ⟨p, hp, rfl⟩
  have h2 := pyStrip_subset _ hc
  rcases splitSentsGo_mem head [] p hp c h2 with h | h
  · simp at h
  · exact h

/-- Characters of the enriched scene come from the cleaned head, the
sensory filler pool, or the joining space. -/
theorem enrich_scene_generic_mem (g : Nat → Nat) (head : Str) (mn mx : Nat)
    (c : Char) (hc : c ∈ enrich_scene_generic g head mn mx) :
    c ∈ head ∨ (∃ p ∈ sensoryPool, c ∈ p) ∨ c = ' ' := by
  unfold enrich_scene_generic at hc
  have hc2 := pyStrip_subset _ hc
  rcases joinSep_mem [' '] _ c hc2 with h | ⟨l, hl, hcl⟩
  · exact Or.inr (Or.inr (by simpa using h))
  · unfold enrichSegs padSents at hl
    have hl2 := List.take_subset _ _ hl
    rcases List.mem_append.mp hl2 with h | h
    · exact Or.inl (sentsOf_mem head l h c hcl)
    · rcases List.mem_map.mp h with ⟨i, _, rfl⟩
      refine Or.inr (Or.inl ?_)
      refine ⟨sensoryPool.getD (g i % sensoryPool.length) [], ?_, hcl⟩
      have hlt : g i % sensoryPool.length < sensoryPool.length := by
        refine Nat.mod_lt _ ?_
        simp [sensoryPool]
      rw [List.getD_eq_getElem _ _ hlt]
      exact List.getElem_mem _

/-- The cleanup translation emits `[` only for `[` or `【`. -/
theorem translateChar_no_br (d : Char) (h1 : d ≠ '[') (h2 : d ≠ '【') :
    '[' ∉ translateChar d := by
  unfold translateChar
  by_cases hc1 : d = '，'
  · rw [if_pos hc1]; decide
  rw [if_neg hc1]
  by_cases hc2 : d = '。'
  · rw [if_pos hc2]; decide
  rw [if_neg hc2]
  by_cases hc3 : d = '！'
  · rw [if_pos hc3]; decide
  rw [if_neg hc3]
  by_cases hc4 : d = '？'
  · rw [if_pos hc4]; decide
  rw [if_neg hc4]
  by_cases hc5 : d = '；'
  · rw [if_pos hc5]; decide
  rw [if_neg hc5]
  by_cases hc6 : d = '：'
  · rw [if_pos hc6]; decide
  rw [if_neg hc6]
  by_cases hc7 : d = '（'
  · rw [if_pos hc7]; decide
  rw [if_neg hc7]
  by_cases hc8 : d = '）'
  · rw [if_pos hc8]; decide
  rw [if_neg hc8]
  by_cases hc9 : d = '【'
  · exact absurd hc9 h2
  rw [if_neg hc9]
  by_cases hc10 : d = '】'
  · rw [if_pos hc10]; decide
  rw [if_neg hc10]
  by_cases hc11 : d = '「'
  · rw [if_pos hc11]; decide
  rw [if_neg hc11]
  by_cases hc12 : d = '」'
  · rw [if_pos hc12]; decide
  rw [if_neg hc12]
  by_cases hc13 : d = '、'
  · rw [if_pos hc13]; decide
  rw [if_neg hc13]
  simp only [List.mem_singleton]
  exact fun hh => h1 hh.symm

/-- The cleanup translation never emits `【`. -/
theorem translateChar_no_fwbr (d : Char) (h2 : d ≠ '【') :
    '【' ∉ translateChar d := by
  unfold translateChar
  by_cases hc1 : d = '，'
  · rw [if_pos hc1]; decide
  rw [if_neg hc1]
  by_cases hc2 : d = '。'
  · rw [if_pos hc2]; decide
  rw [if_neg hc2]
  by_cases hc3 : d = '！'
  · rw [if_pos hc3]; decide
  rw [if_neg hc3]
  by_cases hc4 : d = '？'
  · rw [if_pos hc4]; decide
  rw [if_neg hc4]
  by_cases hc5 : d = '；'
  · rw [if_pos hc5]; decide
  rw [if_neg hc5]
  by_cases hc6 : d = '：'
  · rw [if_pos hc6]; decide
  rw [if_neg hc6]
  by_cases hc7 : d = '（'
  · rw [if_pos hc7]; decide
  rw [if_neg hc7]
  by_cases hc8 : d = '）'
  · rw [if_pos hc8]; decide
  rw [if_neg hc8]
  by_cases hc9 : d = '【'
  · exact absurd hc9 h2
  rw [if_neg hc9]
  by_cases hc10 : d = '】'
  · rw [if_pos hc10]; decide
  rw [if_neg hc10]
  by_cases hc11 : d = '「'
  · rw [if_pos hc11]; decide
  rw [if_neg hc11]
  by_cases hc12 : d = '」'
  · rw [if_pos hc12]; decide
  rw [if_neg hc12]
  by_cases hc13 : d = '、'
  · rw [if_pos hc13]; decide
  rw [if_neg hc13]
  simp only [List.mem_singleton]
  exact fun hh => h2 hh.symm

/-- Characters of a flushed whitespace run come from the run or are
the collapsing space. -/
theorem wsFlush_mem (run : Str) (c : Char) (hc : c ∈ wsFlush run) :
    c ∈ run ∨ c = ' ' := by
  unfold wsFlush at hc
  split_ifs at hc
  · exact Or.inr (by simpa using hc)
  · exact Or.inl (by simpa using hc)

/-- Characters of the whitespace-collapsing pass come from the pending
run, the input, or are the collapsing space. -/
theorem wsCollapseGo_mem (s : Str) : ∀ (run : Str) (c : Char), c ∈ wsCollapseGo run s →
    c ∈ run ∨ c ∈ s ∨ c = ' ' := by
  induction s with
  | nil =>
    intro run c hc
    rcases wsFlush_mem run c (by simpa [wsCollapseGo] using hc) with h | h
    · exact Or.inl h
    · exact Or.inr (Or.inr h)
  | cons a rest ih =>
    intro run c hc
    simp only [wsCollapseGo] at hc
    split at hc
    · rcases ih (a :: run) c hc with h | h | h
      · rcases List.mem_cons.mp h with h2 | h2
        · exact Or.inr (Or.inl (by simp [h2]))
        · exact Or.inl h2
      · exact Or.inr (Or.inl (by simp [h]))
      · exact Or.inr (Or.inr h)
    · rcases List.mem_append.mp hc with h | h
      · rcases wsFlush_mem run c h with h2 | h2
        · exact Or.inl h2
        · exact Or.inr (Or.inr h2)
      · rcases List.mem_cons.mp h with h2 | h2
        · exact Or.inr (Or.inl (by simp [h2]))
        · rcases ih [] c h2 with h3 | h3 | h3
          · simp at h3
          · exact Or.inr (Or.inl (by simp [h3]))
          · exact Or.inr (Or.inr h3)

/-- Characters of the whitespace-before-punctuation deletion come from
the pending run or the input. -/
theorem punctDelGo_mem (s : Str) : ∀ (run : Str) (c : Char), c ∈ punctDelGo run s →
    c ∈ run ∨ c ∈ s := by
  induction s with
  | nil =>
    intro run c hc
    exact Or.inl (by simpa [punctDelGo] using hc)
  | cons a rest ih =>
    intro run c hc
    simp only [punctDelGo] at hc
    split at hc
    · rcases ih (a :: run) c hc with h | h
      · rcases List.mem_cons.mp h with h2 | h2
        · exact Or.inr (by simp [h2])
        · exact Or.inl h2
      · exact Or.inr (by simp [h])
    · split at hc
      · rcases List.mem_cons.mp hc with h | h
        · exact Or.inr (by simp [h])
        · rcases ih [] c h with h2 | h2
          · simp at h2
          · exact Or.inr (by simp [h2])
      · rcases List.mem_append.mp hc with h | h
        · exact Or.inl (by simpa using h)
        · rcases List.mem_cons.mp h with h2 | h2
          · exact Or.inr (by simp [h2])
          · rcases ih [] c h2 with h3 | h3
            · simp at h3
            · exact Or.inr (by simp [h3])

/-- Characters of the punctuation-spacing pass come from the input or
are the inserted space. -/
theorem punctAdd_mem (s : Str) (c : Char) (hc : c ∈ punctAdd s) : c ∈ s ∨ c = ' ' := by
  induction s using punctAdd.induct with
  | case1 => simp [punctAdd] at hc
  | case2 d => exact Or.inl (by simpa [punctAdd] using hc)
  | case3 a d rest ha ih =>
    rw [show punctAdd (a :: d :: rest) = a :: ' ' :: punctAdd (d :: rest) from by
      simp only [punctAdd]; rw [if_pos ha]] at hc
    rcases List.mem_cons.mp hc with h | h
    · exact Or.inl (by simp [h])
    · rcases List.mem_cons.mp h with h2 | h2
      · exact Or.inr h2
      · rcases ih h2 with h3 | h3
        · exact Or.inl (by simp [h3])
        · exact Or.inr h3
  | case4 a d rest ha ih =>
    rw [show punctAdd (a :: d :: rest) = a :: punctAdd (d :: rest) from by
      simp only [punctAdd]; rw [if_neg ha]] at hc
    rcases List.mem_cons.mp hc with h | h
    · exact Or.inl (by simp [h])
    · rcases ih h with h3 | h3
      · exact Or.inl (by simp [h3])
      · exact Or.inr h3

/-- The before-header slice keeps a subset of the characters. -/
theorem takeBeforeSub_subset (pat s : Str) : takeBeforeSub pat s ⊆ s := by
  unfold takeBeforeSub
  cases findSub pat s with
  | some j => exact List.take_subset _ _
  | none => exact fun c hc => hc

/-- The header-suffix removal keeps a subset of the characters. -/
theorem removeSelSuffix_subset (s : Str) : removeSelSuffix s ⊆ s := by
  unfold removeSelSuffix
  cases findSub selSeq s with
  | some j => exact fun c hc => List.take_subset _ _ (pyRstrip_subset _ hc)
  | none => exact fun c hc => hc

/-- The cleanup translation preserves bracket-freedom. -/
theorem translateAll_no_marker (s : Str) (h1 : '[' ∉ s) (h2 : '【' ∉ s) :
    '[' ∉ translateAll s ∧ '【' ∉ translateAll s := by
  constructor
  · intro hc
    rcases List.mem_flatMap.mp hc with ⟨d, hd, hcd⟩
    exact translateChar_no_br d (fun e => h1 (e ▸ hd)) (fun e => h2 (e ▸ hd)) hcd
  · intro hc
    rcases List.mem_flatMap.mp hc with ⟨d, hd, hcd⟩
    exact translateChar_no_fwbr d (fun e => h2 (e ▸ hd)) hcd

/-- The cleaned scene head contains no bracket characters when the raw
text contains none. -/
theorem ppHeadCleaned_no_marker (text : Str) (h1 : '[' ∉ text) (h2 : '【' ∉ text) :
    '[' ∉ ppHeadCleaned text ∧ '【' ∉ ppHeadCleaned text := by
  have hA : ∀ c, c ∈ ppWhole text → c ∈ text ∨ c = '\n' := ppWhole_mem text
  have hB1 : '[' ∉ pyStrip (takeBeforeSub selSeq (ppWhole text)) := by
    intro hc
    rcases hA '[' (takeBeforeSub_subset _ _ (pyStrip_subset _ hc)) with h | h
    · exact h1 h
    · exact absurd h (by decide)
  have hB2 : '【' ∉ pyStrip (takeBeforeSub selSeq (ppWhole text)) := by
    intro hc
    rcases hA '【' (takeBeforeSub_subset _ _ (pyStrip_subset _ hc)) with h | h
    · exact h2 h
    · exact absurd h (by decide)
  have hC1 : '[' ∉ refine_ko (pyStrip (takeBeforeSub selSeq (ppWhole text))) := by
    intro hc
    rcases refine_ko_mem _ '[' hc with h | h | h | h | h | h
    · exact hB1 h
    · exact absurd h (by decide)
    · exact absurd h (by decide)
    · exact absurd h (by decide)
    · exact absurd h (by decide)
    · exact absurd h (by decide)
  have hC2 : '【' ∉ refine_ko (pyStrip (takeBeforeSub selSeq (ppWhole text))) := by
    intro hc
    rcases refine_ko_mem _ '【' hc with h | h | h | h | h | h
    · exact hB2 h
    · exact absurd h (by decide)
    · exact absurd h (by decide)
    · exact absurd h (by decide)
    · exact absurd h (by decide)
    · exact absurd h (by decide)
  have hD1 : '[' ∉ drop_non_korean_lines (refine_ko (pyStrip (takeBeforeSub selSeq (ppWhole text)))) := by
    intro hc
    rcases drop_non_korean_lines_mem _ '[' hc with h | h
    · exact hC1 h
    · exact absurd h (by decide)
  have hD2 : '【' ∉ drop_non_korean_lines (refine_ko (pyStrip (takeBeforeSub selSeq (ppWhole text)))) := by
    intro hc
    rcases drop_non_korean_lines_mem _ '【' hc with h | h
    · exact hC2 h
    · exact absurd h (by decide)
  have hred : ppHeadCleaned text =
      (if bulletSearchM (drop_non_korean_lines (refine_ko (pyStrip (takeBeforeSub selSeq (ppWhole text))))) then
        bullets_to_scene (drop_non_korean_lines (refine_ko (pyStrip (takeBeforeSub selSeq (ppWhole text)))))
      else drop_non_korean_lines (refine_ko (pyStrip (takeBeforeSub selSeq (ppWhole text))))) := rfl
  rw [hred]
  by_cases hb : bulletSearchM (drop_non_korean_lines (refine_ko (pyStrip (takeBeforeSub selSeq (ppWhole text)))))
  · rw [if_pos hb]
    constructor
    · intro hc
      rcases bullets_to_scene_mem _ '[' hc with h | h | h
      · exact hD1 h
      · exact absurd h (by decide)
      · exact absurd h (by decide)
    · intro hc
      rcases bullets_to_scene_mem _ '【' hc with h | h | h
      · exact hD2 h
      · exact absurd h (by decide)
      · exact absurd h (by decide)
  · rw [if_neg hb]
    exact ⟨hD1, hD2⟩

/-- The enriched scene head contains no bracket characters when the
raw text contains none. -/
theorem ppHeadFinal_no_marker (text : Str) (g : Nat → Nat)
    (h1 : '[' ∉ text) (h2 : '【' ∉ text) :
    '[' ∉ ppHeadFinal text g ∧ '【' ∉ ppHeadFinal text g := by
  have hc := ppHeadCleaned_no_marker text h1 h2
  have hpool1 : ∀ p ∈ sensoryPool, '[' ∉ p := by decide
  have hpool2 : ∀ p ∈ sensoryPool, '【' ∉ p := by decide
  constructor
  · intro hm
    rcases enrich_scene_generic_mem g _ 4 6 '[' hm with h | ⟨p, hp, hcp⟩ | h
    · exact hc.1 h
    · exact hpool1 p hp hcp
    · exact absurd h (by decide)
  · intro hm
    rcases enrich_scene_generic_mem g _ 4 6 '【' hm with h | ⟨p, hp, hcp⟩ | h
    · exact hc.2 h
    · exact hpool2 p hp hcp
    · exact absurd h (by decide)

/-- With a zero desired count the formatter's output contains no `[`
at all when the raw text contains neither `[` nor `【`. -/
theorem postprocess_n0_no_marker (text : Str) (g : Nat → Nat)
    (S : Str → List Str → List Str) (h1 : '[' ∉ text) (h2 : '【' ∉ text) :
    '[' ∉ postprocess_trpg text 0 g S := by
  have hbranch : postprocess_trpg text 0 g S =
      ppCleanupFinal (pyStrip (removeSelSuffix (ppHeadFinal text g))) := rfl
  rw [hbranch]
  have hH := ppHeadFinal_no_marker text g h1 h2
  have hR1 : '[' ∉ pyStrip (removeSelSuffix (ppHeadFinal text g)) :=
    fun hc => hH.1 (removeSelSuffix_subset _ (pyStrip_subset _ hc))
  have hR2 : '【' ∉ pyStrip (removeSelSuffix (ppHeadFinal text g)) :=
    fun hc => hH.2 (removeSelSuffix_subset _ (pyStrip_subset _ hc))
  have hT := translateAll_no_marker _ hR1 hR2
  have hK : '[' ∉ cjkStrip (translateAll (pyStrip (removeSelSuffix (ppHeadFinal text g)))) :=
    fun hc => hT.1 ((List.mem_filter.mp hc).1)
  have hW : '[' ∉ wsCollapse (cjkStrip (translateAll (pyStrip (removeSelSuffix (ppHeadFinal text g))))) := by
    intro hc
    rcases wsCollapseGo_mem _ [] '[' hc with h | h | h
    · simp at h
    · exact hK h
    · exact absurd h (by decide)
  have hP : '[' ∉ punctDel (wsCollapse (cjkStrip (translateAll (pyStrip (removeSelSuffix (ppHeadFinal text g)))))) := by
    intro hc
    rcases punctDelGo_mem _ [] '[' hc with h | h
    · simp at h
    · exact hW h
  intro hc
  unfold ppCleanupFinal at hc
  rcases punctAdd_mem _ '[' (pyStrip_subset _ hc) with h | h
  · exact hP h
  · exact absurd h (by decide)

/-- The nonempty-dedup produces a duplicate-free list of nonempty
strings. -/
theorem dedupNonemptyGo_props (l : List Str) : ∀ seen : List Str,
    (dedupNonemptyGo seen l).Nodup ∧
    ∀ x ∈ dedupNonemptyGo seen l, x ≠ [] ∧ x ∉ seen := by
  induction l with
  | nil => intro seen; simp [dedupNonemptyGo]
  | cons a l ih =>
    intro seen
    by_cases hb : a ≠ [] && !(seen.contains a)
    · rw [show dedupNonemptyGo seen (a :: l) = a :: dedupNonemptyGo (a :: seen) l from by
        simp only [dedupNonemptyGo]; rw [if_pos hb]]
      have hprops := ih (a :: seen)
      simp only [Bool.and_eq_true, Bool.not_eq_true', decide_eq_true_eq] at hb
      constructor
      · refine List.nodup_cons.mpr ⟨?_, hprops.1⟩
        intro hmem
        exact (hprops.2 a hmem).2 (by simp)
      · intro x hx
        rcases List.mem_cons.mp hx with h | h
        · subst h
          refine ⟨by simpa using hb.1, ?_⟩
          intro hx2
          have hcontra : List.elem x seen = true := List.elem_iff.mpr hx2
          have hfalse : List.elem x seen = false := hb.2
          rw [hcontra] at hfalse
          cases hfalse
        · have := hprops.2 x h
          exact ⟨this.1, fun hx2 => this.2 (by simp [hx2])⟩
    · rw [show dedupNonemptyGo seen (a :: l) = dedupNonemptyGo seen l from by
        simp only [dedupNonemptyGo]; rw [if_neg hb]]
      exact ih seen

/-- Reduction of `postChoices` to its two branches. -/
theorem postChoices_eq (text : Str) (d : Int) (g : Nat → Nat)
    (S : Str → List Str → List Str) :
    postChoices text d g S =
      if clampChoices d = 0 then []
      else
        (dedupNonempty
          (if (ppExtracted text).length < clampChoices d then
            ppExtracted text ++
              (synthesize_choices S (ppHeadFinal text g)).take
                (clampChoices d - (ppExtracted text).length)
          else ppExtracted text)).take (clampChoices d) := by
  unfold postChoices
  by_cases hn : clampChoices d = 0
  · simp [hn]
  · simp [hn]

/-- C1 (amended): for every raw input, generator state and seeded
sampler, and every desired choice count, the choices block of
`postprocess_trpg` contains AT MOST the clamped desired count of
entries — deduplicated (case-sensitive, first occurrence kept) and
non-empty — with equality not guaranteed, because the code synthesizes
extra candidates before deduplication (only when the raw extracted
count is below the desired count), so duplicate extracted choices can
leave the block short; and when the desired count is 0 no block is
appended: the output contains no `[선택지]` marker at all whenever the
raw text contains no `[` or `【` character (from which the final
cleanup could forge one). -/
theorem c1_choice_count_amended (raw : Str) (d : Int) (g : Nat → Nat)
    (S : Str → List Str → List Str) :
    (postChoices raw d g S).length ≤ clampChoices d ∧
    (postChoices raw d g S).Nodup ∧
    (∀ c ∈ postChoices raw d g S, c ≠ []) ∧
    (clampChoices d = 0 → postChoices raw d g S = []) ∧
    (d = 0 → '[' ∉ raw → '【' ∉ raw →
      ¬ selSeq <:+: postprocess_trpg raw d g S) := by
  refine ⟨?_, ?_, ?_, ?_, ?_⟩
  · rw [postChoices_eq]
    split_ifs with hn h2
    · simp
    · exact List.length_take_le _ _
    · exact List.length_take_le _ _
  · rw [postChoices_eq]
    split_ifs with hn h2
    · simp
    · exact List.Nodup.sublist (List.take_sublist _ _) (dedupNonemptyGo_props _ []).1
    · exact List.Nodup.sublist (List.take_sublist _ _) (dedupNonemptyGo_props _ []).1
  · rw [postChoices_eq]
    split_ifs with hn h2
    · simp
    · intro c hc
      exact ((dedupNonemptyGo_props _ []).2 c (List.take_subset _ _ hc)).1
    · intro c hc
      exact ((dedupNonemptyGo_props _ []).2 c (List.take_subset _ _ hc)).1
  · intro hn
    rw [postChoices_eq, if_pos hn]
  · intro hd h1 h2 hinf
    subst hd
    exact postprocess_n0_no_marker raw g S h1 h2 (hinf.subset (by decide))

/-- Witness for C1 (amended) at a concrete bracket-free input with
desired count 0: no choices are produced and the output carries no
`[선택지]` marker. -/
theorem c1_choice_count_amended_witness :
    postChoices (("가나다. 라라라.").toList) 0 gZero sampleTake3 = [] ∧
    ¬ selSeq <:+: postprocess_trpg (("가나다. 라라라.").toList) 0 gZero sampleTake3 := by
  have h := c1_choice_count_amended (("가나다. 라라라.").toList) 0 gZero sampleTake3
  exact ⟨h.2.2.2.1 (by decide), h.2.2.2.2 rfl (by decide) (by decide)⟩

/-- Counterexample for C1 as stated: with two identical extracted
choices and desired count 2, the block holds exactly one entry, not
two — the raw extracted count (2) suppresses synthesis, and
deduplication afterwards drops the copy. -/
theorem c1_choice_count_counterexample :
    postChoices (("가. [선택지] - 가자\n- 가자").toList) 2 gZero sampleTake3 =
      [("가자").toList] ∧
    clampChoices 2 = 2 ∧
    (postChoices (("가. [선택지] - 가자\n- 가자").toList) 2 gZero sampleTake3).length ≠
      clampChoices 2 := by decide

/-- Unfolding of the choices-block parse on a cons. -/
theorem selEntriesGo_cons (ln : Str) (ls : List Str) :
    selEntriesGo (ln :: ls) = selStep ln (selEntriesGo ls) := rfl

/-- The parse step only looks at the stripped line. -/
theorem selStep_congr (a b : Str) (r : List Str) (h : pyStrip a = pyStrip b) :
    selStep a r = selStep b r := by
  unfold selStep
  rw [h]

/-- `dropWhile` across an append. -/
theorem dropWhile_app (p : Char → Bool) (a b : Str) :
    List.dropWhile p (a ++ b) =
      if List.dropWhile p a = [] then List.dropWhile p b
      else List.dropWhile p a ++ b := by
  induction a with
  | nil => simp
  | cons c a ih =>
    by_cases hc : p c
    · simp only [List.cons_append, List.dropWhile_cons, hc, if_true]
      exact ih
    · simp [List.dropWhile_cons, hc]

/-- `lstrip` across an append. -/
theorem pyLstrip_app (u v : Str) :
    pyLstrip (u ++ v) = if pyLstrip u = [] then pyLstrip v else pyLstrip u ++ v := by
  unfold pyLstrip
  exact dropWhile_app _ u v

/-- `rstrip` across an append. -/
theorem pyRstrip_app (u v : Str) :
    pyRstrip (u ++ v) = if pyRstrip v = [] then pyRstrip u else u ++ pyRstrip v := by
  unfold pyRstrip
  rw [List.reverse_append, dropWhile_app]
  by_cases h : List.dropWhile (fun c => isPySpace c) v.reverse = []
  · rw [if_pos h, if_pos (show (List.dropWhile (fun c => isPySpace c) v.reverse).reverse = [] by rw [h]; rfl)]
  · rw [if_neg h,
      if_neg (show ¬ (List.dropWhile (fun c => isPySpace c) v.reverse).reverse = [] from
        fun hh => h (by simpa using hh)),
      List.reverse_append, List.reverse_reverse]

/-- Every string is its `rstrip` followed by a whitespace suffix. -/
theorem pyRstrip_decomp (s : Str) :
    ∃ W, s = pyRstrip s ++ W ∧ ∀ c ∈ W, isPySpace c = true := by
  refine ⟨(s.reverse.takeWhile (fun c => isPySpace c)).reverse, ?_, ?_⟩
  · unfold pyRstrip
    calc s = s.reverse.reverse := (List.reverse_reverse s).symm
    _ = ((s.reverse.takeWhile (fun c => isPySpace c)) ++
          (s.reverse.dropWhile (fun c => isPySpace c))).reverse := by
        rw [List.takeWhile_append_dropWhile]
    _ = (s.reverse.dropWhile (fun c => isPySpace c)).reverse ++
          (s.reverse.takeWhile (fun c => isPySpace c)).reverse := by
        rw [List.reverse_append]
  · intro c hc
    exact List.mem_takeWhile_imp (List.mem_reverse.mp hc)

/-- Appending one whitespace character does not change `rstrip`. -/
theorem pyRstrip_snoc_space (x : Str) (c : Char) (h : isPySpace c = true) :
    pyRstrip (x ++ [c]) = pyRstrip x := by
  unfold pyRstrip
  rw [List.reverse_append, List.reverse_singleton, List.singleton_append,
    List.dropWhile_cons, h]
  simp

/-- A string leads with itself. -/
theorem leadsWith_append_self (p B : Str) : leadsWith p (p ++ B) = true := by
  induction p with
  | nil => rfl
  | cons c p ih => simp [leadsWith, ih]

/-- `leadsWith` is the prefix relation. -/
theorem leadsWith_iff (p : Str) : ∀ s : Str, leadsWith p s = true ↔ p <+: s := by
  induction p with
  | nil => intro s; simp [leadsWith]
  | cons c p ih =>
    intro s
    cases s with
    | nil => simp [leadsWith]
    | cons d s => simp [leadsWith, ih, List.cons_prefix_cons]

/-- A successful `leadsWith` on a nonempty string is found at index 0. -/
theorem findSub_zero (pat s : Str) (hs : s ≠ []) (h : leadsWith pat s = true) :
    findSub pat s = some 0 := by
  cases s with
  | nil => exact absurd rfl hs
  | cons c cs =>
    simp only [findSub]
    rw [if_pos h]

/-- The found index of a substring really carries the substring. -/
theorem findSub_drop (pat : Str) : ∀ (s : Str) (j : Nat), findSub pat s = some j →
    pat <+: s.drop j := by
  intro s
  induction s with
  | nil =>
    intro j h
    simp only [findSub] at h
    split at h
    · cases h
      have hp : pat = [] := by assumption
      subst hp
      simp
    · cases h
  | cons c cs ih =>
    intro j h
    simp only [findSub] at h
    split at h
    · cases h
      exact (leadsWith_iff pat (c :: cs)).mp (by assumption)
    · cases hfc : findSub pat cs with
      | none => rw [hfc] at h; cases h
      | some j' =>
        rw [hfc] at h
        simp only [Option.map_some'] at h
        cases h
        simpa using ih j' hfc

/-- A prefix agrees with the bigger list on `getD` within its length. -/
theorem prefix_getD (p s : Str) (h : p <+: s) (i : Nat) (hi : i < p.length)
    (d : Char) : s.getD i d = p.getD i d := by
  rcases h with ⟨t, rfl⟩
  exact List.getD_append p t d i hi

/-- The header marker has no self-overlap: prepending any
marker-free string places its first occurrence exactly at the join. -/
theorem findSub_prepend (B : Str) : ∀ A : Str, ¬ selSeq <:+: A →
    findSub selSeq (A ++ (selSeq ++ B)) = some A.length := by
  intro A
  induction A with
  | nil =>
    intro _
    rw [List.nil_append]
    exact findSub_zero _ _ (by simp [selSeq]) (leadsWith_append_self _ _)
  | cons c A' ih =>
    intro hA
    have hA' : ¬ selSeq <:+: A' := fun hh => hA (hh.trans (List.suffix_cons c A').isInfix)
    have hguard : ¬ leadsWith selSeq (c :: (A' ++ (selSeq ++ B))) = true := by
      intro hg
      have hpre : selSeq <+: (c :: A') ++ (selSeq ++ B) := by
        rw [List.cons_append]
        exact (leadsWith_iff _ _).mp hg
      by_cases hlen : selSeq.length ≤ (c :: A').length
      · exact hA (List.prefix_of_prefix_length_le hpre (List.prefix_append _ _) hlen).isInfix
      · push_neg at hlen
        have hm1 : 1 ≤ (c :: A').length := by simp
        have hsel6 : selSeq.length = 5 := by decide
        have e1 : ((c :: A') ++ (selSeq ++ B)).getD (c :: A').length ' ' =
            selSeq.getD (c :: A').length ' ' :=
          prefix_getD _ _ hpre _ hlen ' '
        have e2 : ((c :: A') ++ (selSeq ++ B)).getD (c :: A').length ' ' =
            (selSeq ++ B).getD 0 ' ' := by
          rw [List.getD_append_right _ _ _ _ (Nat.le_refl _), Nat.sub_self]
        have e3 : (selSeq ++ B).getD 0 ' ' = '[' := by
          rw [List.getD_append _ _ _ _ (by decide)]
          decide
        have hbad : selSeq.getD (c :: A').length ' ' = '[' := by
          rw [← e1, e2, e3]
        have hforall : ∀ k, k < 5 → 1 ≤ k → ¬ selSeq.getD k ' ' = '[' := by decide
        exact hforall (c :: A').length (hsel6 ▸ hlen) hm1 hbad
    show findSub selSeq ((c :: A') ++ (selSeq ++ B)) = some (c :: A').length
    rw [List.cons_append]
    simp only [findSub]
    rw [if_neg hguard, ih hA']
    rfl

/-- Step equation: after `\r` a following `\n` is consumed. -/
theorem pySplitlinesGo_skip (cur : Str) (cs : Str) :
    pySplitlinesGo true cur ('\n' :: cs) = pySplitlinesGo false cur cs := by
  simp [pySplitlinesGo]

/-- Step equation: `\r` closes the line and arms the skip flag. -/
theorem pySplitlinesGo_cr (sk : Bool) (cur : Str) (cs : Str) :
    pySplitlinesGo sk cur ('\r' :: cs) = cur.reverse :: pySplitlinesGo true [] cs := by
  simp [pySplitlinesGo]

/-- Step equation: a terminator other than `\n`/`\r` closes the line
from either state. -/
theorem pySplitlinesGo_term_any (sk : Bool) (cur : Str) (c : Char) (cs : Str)
    (hc : isLineTerm c = true) (hn : c ≠ '\n') (hr : c ≠ '\r') :
    pySplitlinesGo sk cur (c :: cs) = cur.reverse :: pySplitlinesGo false [] cs := by
  simp [pySplitlinesGo, hc, hn, hr]

/-- Splitting an all-whitespace string (from an all-whitespace current
line) yields only all-whitespace lines. -/
theorem pySplitlinesGo_allspace : ∀ (W : Str) (sk : Bool) (cur : Str),
    (∀ c ∈ W, isPySpace c = true) → (∀ c ∈ cur, isPySpace c = true) →
    ∀ l ∈ pySplitlinesGo sk cur W, ∀ c ∈ l, isPySpace c = true := by
  intro W
  induction W with
  | nil =>
    intro sk cur _ hcur l hl c hc
    simp only [pySplitlinesGo] at hl
    split at hl
    · simp at hl
    · simp at hl
      subst hl
      exact hcur c (List.mem_reverse.mp hc)
  | cons d W' ih =>
    intro sk cur hW hcur l hl c hc
    have hd : isPySpace d = true := hW d (by simp)
    have hW' : ∀ c ∈ W', isPySpace c = true := fun c hc => hW c (by simp [hc])
    by_cases hterm : isLineTerm d = true
    · by_cases hn : d = '\n'
      · subst hn
        cases sk with
        | true =>
          rw [pySplitlinesGo_skip] at hl
          exact ih false cur hW' hcur l hl c hc
        | false =>
          rw [pySplitlinesGo_term cur _ _ hterm (by decide)] at hl
          rcases List.mem_cons.mp hl with h | h
          · subst h; exact hcur c (List.mem_reverse.mp hc)
          · exact ih false [] hW' (by simp) l h c hc
      · by_cases hr : d = '\r'
        · subst hr
          rw [pySplitlinesGo_cr] at hl
          rcases List.mem_cons.mp hl with h | h
          · subst h; exact hcur c (List.mem_reverse.mp hc)
          · exact ih true [] hW' (by simp) l h c hc
        · rw [pySplitlinesGo_term_any sk cur d W' hterm hn hr] at hl
          rcases List.mem_cons.mp hl with h | h
          · subst h; exact hcur c (List.mem_reverse.mp hc)
          · exact ih false [] hW' (by simp) l h c hc
    · rw [pySplitlinesGo_nonterm sk cur d W' (by simpa using hterm)] at hl
      refine ih false (d :: cur) hW' ?_ l hl c hc
      intro e he
      rcases List.mem_cons.mp he with h | h
      · subst h; exact hd
      · exact hcur e h

/-- After the first line, splitting an all-whitespace string yields
only all-whitespace lines — whatever the current line holds. -/
theorem pySplitlinesGo_tail_allspace : ∀ (W : Str) (sk : Bool) (cur : Str),
    (∀ c ∈ W, isPySpace c = true) →
    ∀ l ∈ (pySplitlinesGo sk cur W).tail, ∀ c ∈ l, isPySpace c = true := by
  intro W
  induction W with
  | nil =>
    intro sk cur _ l hl
    simp only [pySplitlinesGo] at hl
    split at hl <;> simp at hl
  | cons d W' ih =>
    intro sk cur hW l hl c hc
    have hW' : ∀ c ∈ W', isPySpace c = true := fun c hc => hW c (by simp [hc])
    by_cases hterm : isLineTerm d = true
    · by_cases hn : d = '\n'
      · subst hn
        cases sk with
        | true =>
          rw [pySplitlinesGo_skip] at hl
          exact ih false cur hW' l hl c hc
        | false =>
          rw [pySplitlinesGo_term cur _ _ hterm (by decide), List.tail_cons] at hl
          exact pySplitlinesGo_allspace W' false [] hW' (by simp) l hl c hc
      · by_cases hr : d = '\r'
        · subst hr
          rw [pySplitlinesGo_cr, List.tail_cons] at hl
          exact pySplitlinesGo_allspace W' true [] hW' (by simp) l hl c hc
        · rw [pySplitlinesGo_term_any sk cur d W' hterm hn hr, List.tail_cons] at hl
          exact pySplitlinesGo_allspace W' false [] hW' (by simp) l hl c hc
    · rw [pySplitlinesGo_nonterm sk cur d W' (by simpa using hterm)] at hl
      exact ih false (d :: cur) hW' l hl c hc

/-- An all-whitespace string strips to nothing. -/
theorem allspace_pyStrip (l : Str) (h : ∀ c ∈ l, isPySpace c = true) :
    pyStrip l = [] := by
  unfold pyStrip pyLstrip
  rw [List.dropWhile_eq_nil_iff]
  intro a ha
  exact h a (pyRstrip_subset l ha)

/-- The choices-block parse yields nothing on all-whitespace lines. -/
theorem selGo_allspace (L : List Str) (h : ∀ l ∈ L, ∀ c ∈ l, isPySpace c = true) :
    selEntriesGo L = [] := by
  cases L with
  | nil => rfl
  | cons l ls =>
    rw [selEntriesGo_cons]
    simp [selStep, allspace_pyStrip l (h l (by simp))]

/-- Appending only whitespace to the split input does not change the
parsed choices entries. -/
theorem selGo_base : ∀ (W : Str), (∀ c ∈ W, isPySpace c = true) →
    ∀ (sk : Bool) (cur : Str),
      selEntriesGo (pySplitlinesGo sk cur W) =
        selEntriesGo (pySplitlinesGo sk cur []) := by
  intro W
  induction W with
  | nil => intro _ sk cur; rfl
  | cons d W' ih =>
    intro hW sk cur
    have hd : isPySpace d = true := hW d (by simp)
    have hW' : ∀ c ∈ W', isPySpace c = true := fun c hc => hW c (by simp [hc])
    have hRHS : selEntriesGo (pySplitlinesGo sk cur []) = selStep cur.reverse [] := by
      simp only [pySplitlinesGo]
      by_cases hcur : cur = []
      · rw [if_pos hcur]; subst hcur; rfl
      · rw [if_neg hcur]; rfl
    by_cases hterm : isLineTerm d = true
    · by_cases hn : d = '\n'
      · subst hn
        cases sk with
        | true =>
          rw [pySplitlinesGo_skip, ih hW' false cur]
          rfl
        | false =>
          rw [pySplitlinesGo_term cur _ _ hterm (by decide), selEntriesGo_cons,
            ih hW' false [], hRHS]
          rfl
      · by_cases hr : d = '\r'
        · subst hr
          rw [pySplitlinesGo_cr, selEntriesGo_cons, ih hW' true [], hRHS]
          rfl
        · rw [pySplitlinesGo_term_any sk cur d W' hterm hn hr, selEntriesGo_cons,
            ih hW' false [], hRHS]
          rfl
    · rw [pySplitlinesGo_nonterm sk cur d W' (by simpa using hterm),
        ih hW' false (d :: cur), hRHS]
      have hdc : pySplitlinesGo false (d :: cur) [] = [(d :: cur).reverse] := by
        simp [pySplitlinesGo]
      rw [hdc, selEntriesGo_cons]
      have hrev : (d :: cur).reverse = cur.reverse ++ [d] := by simp
      rw [hrev]
      exact selStep_congr _ _ _ (by unfold pyStrip; rw [pyRstrip_snoc_space _ _ hd])

/-- Appending only whitespace does not change the parse of the full
line list. -/
theorem selGo_ws (W : Str) (hW : ∀ c ∈ W, isPySpace c = true) :
    ∀ (Y : Str) (sk : Bool) (cur : Str),
      selEntriesGo (pySplitlinesGo sk cur (Y ++ W)) =
        selEntriesGo (pySplitlinesGo sk cur Y) := by
  intro Y
  induction Y with
  | nil => intro sk cur; rw [List.nil_append]; exact selGo_base W hW sk cur
  | cons d Y' ih =>
    intro sk cur
    rw [List.cons_append]
    by_cases hterm : isLineTerm d = true
    · by_cases hn : d = '\n'
      · subst hn
        cases sk with
        | true =>
          rw [pySplitlinesGo_skip, pySplitlinesGo_skip]
          exact ih false cur
        | false =>
          rw [pySplitlinesGo_term cur _ _ hterm (by decide),
            pySplitlinesGo_term cur _ _ hterm (by decide),
            selEntriesGo_cons, selEntriesGo_cons, ih false []]
      · by_cases hr : d = '\r'
        · subst hr
          rw [pySplitlinesGo_cr, pySplitlinesGo_cr,
            selEntriesGo_cons, selEntriesGo_cons, ih true []]
        · rw [pySplitlinesGo_term_any sk cur d _ hterm hn hr,
            pySplitlinesGo_term_any sk cur d _ hterm hn hr,
            selEntriesGo_cons, selEntriesGo_cons, ih false []]
    · rw [pySplitlinesGo_nonterm sk cur d _ (by simpa using hterm),
        pySplitlinesGo_nonterm sk cur d _ (by simpa using hterm)]
      exact ih false (d :: cur)

/-- Appending only whitespace does not change the parse of the lines
after the first one. -/
theorem selGo_ws_tail (W : Str) (hW : ∀ c ∈ W, isPySpace c = true) :
    ∀ (Y : Str) (sk : Bool) (cur : Str),
      selEntriesGo ((pySplitlinesGo sk cur (Y ++ W)).tail) =
        selEntriesGo ((pySplitlinesGo sk cur Y).tail) := by
  intro Y
  induction Y with
  | nil =>
    intro sk cur
    rw [List.nil_append]
    have hR : (pySplitlinesGo sk cur []).tail = [] := by
      simp only [pySplitlinesGo]
      by_cases hcur : cur = []
      · rw [if_pos hcur]; rfl
      · rw [if_neg hcur]; rfl
    rw [hR]
    exact selGo_allspace _ (pySplitlinesGo_tail_allspace W sk cur hW)
  | cons d Y' ih =>
    intro sk cur
    rw [List.cons_append]
    by_cases hterm : isLineTerm d = true
    · by_cases hn : d = '\n'
      · subst hn
        cases sk with
        | true =>
          rw [pySplitlinesGo_skip, pySplitlinesGo_skip]
          exact ih false cur
        | false =>
          rw [pySplitlinesGo_term cur _ _ hterm (by decide),
            pySplitlinesGo_term cur _ _ hterm (by decide),
            List.tail_cons, List.tail_cons]
          exact selGo_ws W hW Y' false []
      · by_cases hr : d = '\r'
        · subst hr
          rw [pySplitlinesGo_cr, pySplitlinesGo_cr, List.tail_cons, List.tail_cons]
          exact selGo_ws W hW Y' true []
        · rw [pySplitlinesGo_term_any sk cur d _ hterm hn hr,
            pySplitlinesGo_term_any sk cur d _ hterm hn hr,
            List.tail_cons, List.tail_cons]
          exact selGo_ws W hW Y' false []
    · rw [pySplitlinesGo_nonterm sk cur d _ (by simpa using hterm),
        pySplitlinesGo_nonterm sk cur d _ (by simpa using hterm)]
      exact ih false (d :: cur)

/-- Anything starting with the header marker is nonempty. -/
theorem selSeq_append_ne (X : Str) : selSeq ++ X ≠ [] := by
  intro h
  have h5 : selSeq.length = 5 := by decide
  have hlen := congrArg List.length h
  rw [List.length_append, h5] at hlen
  simp at hlen

/-- `lstrip` leaves a header-led string alone. -/
theorem pyLstrip_sel (X : Str) : pyLstrip (selSeq ++ X) = selSeq ++ X := by
  unfold pyLstrip
  rw [dropWhile_app,
    show List.dropWhile (fun c => isPySpace c) selSeq = selSeq by decide,
    if_neg (show ¬ selSeq = [] by decide)]

/-- `rstrip` of a header-led string strips only after the header. -/
theorem pyRstrip_sel (X : Str) : pyRstrip (selSeq ++ X) = selSeq ++ pyRstrip X := by
  rw [pyRstrip_app]
  by_cases h : pyRstrip X = []
  · rw [if_pos h, h, List.append_nil]
    decide
  · rw [if_neg h]

/-- The choices entries of a string whose header sits at index `j`. -/
theorem selEntries_eq_go (s : Str) (j : Nat) (h : findSub selSeq s = some j) :
    selEntries s = selEntriesGo ((pySplitlines (s.drop j)).drop 1) := by
  unfold selEntries
  rw [h]

/-- The kept tail of the header split lstrips to the header-led suffix
of the input, and is nonempty when the header occurs. -/
theorem splitKeep_tail (text : Str) (j : Nat) (hj : findSub selSeq text = some j)
    (R : Str) (hR : selSeq ++ R = text.drop j) :
    pyLstrip (splitKeep text).2 = selSeq ++ R ∧ (splitKeep text).2 ≠ [] := by
  have hne : text.drop j ≠ [] := by rw [← hR]; exact selSeq_append_ne R
  have hjlen : j < text.length := by
    have : ¬ text.length ≤ j := fun hle => hne (List.drop_eq_nil_of_le hle)
    omega
  simp only [splitKeep, hj]
  by_cases hb : (decide (0 < j) && decide (text.getD (j - 1) ' ' = '\n')) = true
  · simp only [Bool.and_eq_true, decide_eq_true_eq] at hb
    rw [if_pos (by simp [hb.1, hb.2, ← List.getD_eq_getElem?_getD])]
    have hdrop : text.drop (j - 1) = '\n' :: text.drop j := by
      have hlt : j - 1 < text.length := by omega
      rw [List.drop_eq_getElem_cons hlt, show j - 1 + 1 = j by omega]
      have := List.getD_eq_getElem text ' ' hlt
      rw [← this, hb.2]
    constructor
    · show pyLstrip (text.drop (j - 1)) = selSeq ++ R
      rw [hdrop, ← hR]
      unfold pyLstrip
      rw [List.dropWhile_cons, show isPySpace '\n' = true by decide]
      exact pyLstrip_sel R
    · show text.drop (j - 1) ≠ []
      rw [hdrop]
      exact List.cons_ne_nil _ _
  · rw [if_neg (by simpa using hb)]
    constructor
    · show pyLstrip (text.drop j) = selSeq ++ R
      rw [← hR]
      exact pyLstrip_sel R
    · exact hne

/-- C7: the style polisher is no-op-safe and frame-preserving: when
the polishing LLM invocation fails, `polish` returns its input
unchanged; and for every input containing a `[선택지]` choices header,
`polish_trpg_keep_choices` — while rewriting and defensively
re-filtering only the head — reattaches the choices portion with its
parsed entries unaltered, provided the polished-and-repaired head does
not itself contain a `[` character (with which it could forge an
earlier header). -/
theorem c7_polisher_frame (llmOut : Option Str) (g1 g2 : Nat → Nat) (text : Str) :
    (∀ t : Str, polish none t = t) ∧
    ((findSub selSeq text).isSome →
      '[' ∉ polishedHeadAC llmOut g1 g2 text →
      selEntries (polish_trpg_keep_choices llmOut g1 g2 text) = selEntries text) := by
  refine ⟨fun t => rfl, ?_⟩
  intro hsome hbr
  obtain ⟨j, hj⟩ := Option.isSome_iff_exists.mp hsome
  obtain ⟨R, hR⟩ := findSub_drop selSeq text j hj
  obtain ⟨htail1, htail2⟩ := splitKeep_tail text j hj R hR
  have hout : polish_trpg_keep_choices llmOut g1 g2 text =
      (if (splitKeep text).2 ≠ [] then
        pyStrip (pyRstrip (polishedHeadAC llmOut g1 g2 text) ++ ("\n\n").toList ++
          pyLstrip (splitKeep text).2)
      else pyStrip (pyRstrip (polishedHeadAC llmOut g1 g2 text))) := rfl
  rw [hout, if_pos htail2, htail1]
  have e2 : pyStrip (pyRstrip (polishedHeadAC llmOut g1 g2 text) ++ ("\n\n").toList ++
        (selSeq ++ R)) =
      pyLstrip (pyRstrip (polishedHeadAC llmOut g1 g2 text) ++ ("\n\n").toList ++
        (selSeq ++ pyRstrip R)) := by
    unfold pyStrip
    rw [pyRstrip_app, pyRstrip_sel, if_neg (selSeq_append_ne _)]
  rw [e2]
  have hgoal : ∀ A : Str, ¬ selSeq <:+: A →
      selEntries (A ++ (selSeq ++ pyRstrip R)) = selEntries text := by
    intro A hni
    rw [selEntries_eq_go _ A.length (findSub_prepend _ A hni), List.drop_left,
      selEntries_eq_go text j hj, ← hR]
    obtain ⟨W, hWeq, hWsp⟩ := pyRstrip_decomp R
    conv_rhs => rw [hWeq]
    rw [← List.append_assoc]
    unfold pySplitlines
    rw [List.drop_one, List.drop_one]
    exact (selGo_ws_tail W hWsp (selSeq ++ pyRstrip R) false []).symm
  by_cases hph : pyStrip (polishedHeadAC llmOut g1 g2 text) = []
  · have hA0 : pyLstrip (pyRstrip (polishedHeadAC llmOut g1 g2 text) ++
        ("\n\n").toList) = [] := by
      have hph' : pyLstrip (pyRstrip (polishedHeadAC llmOut g1 g2 text)) = [] := hph
      rw [pyLstrip_app, if_pos hph']
      decide
    have hA : pyLstrip (pyRstrip (polishedHeadAC llmOut g1 g2 text) ++ ("\n\n").toList ++
        (selSeq ++ pyRstrip R)) = selSeq ++ pyRstrip R := by
      rw [pyLstrip_app, if_pos hA0, pyLstrip_sel]
    rw [hA]
    have hni : ¬ selSeq <:+: ([] : Str) := by
      intro h
      have h0 := h.length_le
      rw [show selSeq.length = 5 from by decide] at h0
      simp at h0
    simpa using hgoal [] hni
  · have hA0 : pyLstrip (pyRstrip (polishedHeadAC llmOut g1 g2 text) ++
        ("\n\n").toList) =
        pyStrip (polishedHeadAC llmOut g1 g2 text) ++ ("\n\n").toList := by
      have hph' : ¬ pyLstrip (pyRstrip (polishedHeadAC llmOut g1 g2 text)) = [] := hph
      rw [pyLstrip_app, if_neg hph']
      rfl
    have hnl : (("\n\n").toList) ≠ [] := by decide
    have hAne : ¬ pyStrip (polishedHeadAC llmOut g1 g2 text) ++ ("\n\n").toList = [] :=
      fun h => hnl (List.append_eq_nil.mp h).2
    have hA : pyLstrip (pyRstrip (polishedHeadAC llmOut g1 g2 text) ++ ("\n\n").toList ++
        (selSeq ++ pyRstrip R)) =
        pyStrip (polishedHeadAC llmOut g1 g2 text) ++ ("\n\n").toList ++
          (selSeq ++ pyRstrip R) := by
      rw [pyLstrip_app, hA0, if_neg hAne]
    rw [hA]
    have hni : ¬ selSeq <:+:
        pyStrip (polishedHeadAC llmOut g1 g2 text) ++ ("\n\n").toList := by
      intro h
      have hb : '[' ∈ pyStrip (polishedHeadAC llmOut g1 g2 text) ++ ("\n\n").toList :=
        h.subset (by decide)
      rcases List.mem_append.mp hb with h' | h'
      · exact hbr (pyStrip_subset _ h')
      · exact absurd h' (by decide)
    exact hgoal _ hni

/-- Witness for C7 at a concrete combined scene-and-choices text with
a successful polish: the choices entries survive unchanged. -/
theorem c7_polisher_frame_witness :
    ((findSub selSeq (("가나다.\n[선택지]\n- 하나\n- 둘").toList)).isSome ∧
      '[' ∉ polishedHeadAC (some (("라라라.").toList)) gZero gZero
        (("가나다.\n[선택지]\n- 하나\n- 둘").toList)) ∧
    selEntries (polish_trpg_keep_choices (some (("라라라.").toList)) gZero gZero
        (("가나다.\n[선택지]\n- 하나\n- 둘").toList)) =
      selEntries (("가나다.\n[선택지]\n- 하나\n- 둘").toList) :=
  ⟨⟨by decide, by decide⟩,
   (c7_polisher_frame (some (("라라라.").toList)) gZero gZero
      (("가나다.\n[선택지]\n- 하나\n- 둘").toList)).2 (by decide) (by decide)⟩
